import Mathlib

/-! # gin-metrics: the request interceptor of `ginmetrics/middleware.go`

A shallow embedding of the measurement pipeline (`monitorInterceptor`,
`ginMetricHandle`), of the label resolver (`getMetadata`,
`getMetricLabelsIncludingMetadata`, `getMetricValues`) and of the
initialisation (`initGinMetrics`, `Use`, `UseWithoutExposingEndpoint`).

Conventions of the embedding:

* package state (the `bloomFilter` variable, the monitor's metric registry) is
  passed explicitly as a `State`;
* the Bloom filter package and the metric registry are not part of
  `middleware.go`; the code is written against their operations
  (`BloomOps`, `MetricOps`), and a model of each, taken from the
  specification, is given for concrete runs;
* Go iterates a map in an unspecified order that may change from one `range`
  statement to the next; every `range m.metadata` takes the order in which it
  visits the keys as an argument;
* `float64` values are modelled exactly (non-negative dyadic rationals with
  round-to-nearest-even), because `int32(latency.Seconds())` decides the
  slow-request counter.
-/

namespace Ginmetrics

/-! ## float64 arithmetic on non-negative values -/

/-- A finite non-negative float64 value, `num / 2 ^ scale`. -/
structure Float64 where
  num : Nat
  scale : Nat
deriving DecidableEq, Repr

/-- The rational number a `Float64` stands for. -/
def Float64.toRat (x : Float64) : ℚ := (x.num : ℚ) / 2 ^ x.scale

/-- Truncation toward zero (the integer part), as in a Go conversion `intN(f)`. -/
def Float64.trunc (x : Float64) : Nat := x.num / 2 ^ x.scale

/-- Floor of the base-2 logarithm by repeated halving, at most `fuel` halvings. -/
def log2Fuel : Nat → Nat → Nat
  | 0, _ => 0
  | fuel + 1, n => if n < 2 then 0 else log2Fuel fuel (n / 2) + 1

/-- Floor of the base-2 logarithm of `n` (zero for `n = 0`); `n` halvings suffice. -/
def ilog2 (n : Nat) : Nat := log2Fuel n n

/-- The quotient `N / D` rounded to the nearest integer, ties to the even one. -/
def roundQuot (N D : Nat) : Nat :=
  let q := N / D
  let r := N % D
  if 2 * r < D then q else if D < 2 * r then q + 1 else if q % 2 = 0 then q else q + 1

/-- IEEE 754 round-to-nearest, ties-to-even, of the exact quotient `a / b` to
the 53 significant bits of a float64. With `U = 64 + ilog2 b` the integer
`a * 2 ^ U / b` has at least 64 bits; its `t` low bits are dropped, so that the
rounded quotient `q1` of `a * 2 ^ U` by `b * 2 ^ t` is the 53-bit significand
and the result is `q1 * 2 ^ t / 2 ^ U`. Overflow to infinity and subnormal results
do not arise for the magnitudes used here; a zero divisor (which Go answers
with Inf or NaN) is not used and yields zero. -/
def roundNearestEven (a b : Nat) : Float64 :=
  if a = 0 ∨ b = 0 then ⟨0, 0⟩ else
  let U := 64 + ilog2 b
  let t := ilog2 (a * 2 ^ U / b) - 52
  let q1 := roundQuot (a * 2 ^ U) (b * 2 ^ t)
  if t ≤ U then ⟨q1, U - t⟩ else ⟨q1 * 2 ^ (t - U), 0⟩

/-- The number `t` of low bits that `roundNearestEven a b` drops. -/
def dropBits (a b : Nat) : Nat := ilog2 (a * 2 ^ (64 + ilog2 b) / b) - 52

/-- Go `float64(n)` for a non-negative integer `n`. -/
def f64OfNat (n : Nat) : Float64 := roundNearestEven n 1

/-- Go `x + y` on float64. -/
def f64Add (x y : Float64) : Float64 :=
  roundNearestEven (x.num * 2 ^ y.scale + y.num * 2 ^ x.scale) (2 ^ (x.scale + y.scale))

/-- Go `x / y` on float64. -/
def f64Div (x y : Float64) : Float64 :=
  roundNearestEven (x.num * 2 ^ y.scale) (y.num * 2 ^ x.scale)

/-- Go `time.Duration.Seconds` for a non-negative duration of `d` nanoseconds:
`sec := d / Second; nsec := d % Second; float64(sec) + float64(nsec)/1e9`. -/
def Seconds (d : Nat) : Float64 :=
  f64Add (f64OfNat (d / 1000000000)) (f64Div (f64OfNat (d % 1000000000)) (f64OfNat 1000000000))

/-- Reduce an integer to the int32 range (two's complement). -/
def wrapInt32 (z : Int) : Int := (z + 2 ^ 31) % 2 ^ 32 - 2 ^ 31

/-- Go `int32(f)` for a non-negative float64 `f`: the integer part when it fits
int32; otherwise the Go specification leaves the result to the implementation
(`ovf f`, some int32 value: amd64 gives -2^31, arm64 saturates at 2^31-1). -/
def toInt32 (ovf : Float64 → Int) (f : Float64) : Int :=
  if f.trunc < 2 ^ 31 then (f.trunc : Int) else wrapInt32 (ovf f)

/-! ## Monitor configuration and label resolution -/

/-- Go `metricRequestTotal`. -/
def metricRequestTotal : String := "gin_request_total"
/-- Go `metricRequestUVTotal`. -/
def metricRequestUVTotal : String := "gin_request_uv_total"
/-- Go `metricURIRequestTotal`. -/
def metricURIRequestTotal : String := "gin_uri_request_total"
/-- Go `metricRequestBody`. -/
def metricRequestBody : String := "gin_request_body_total"
/-- Go `metricResponseBody`. -/
def metricResponseBody : String := "gin_response_body_total"
/-- Go `metricRequestDuration`. -/
def metricRequestDuration : String := "gin_request_duration"
/-- Go `metricSlowRequest`. -/
def metricSlowRequest : String := "gin_slow_request_total"

/-- The seven metrics of the catalog, in the order `initGinMetrics` registers them. -/
def catalog : List String :=
  [metricRequestTotal, metricRequestUVTotal, metricURIRequestTotal, metricRequestBody,
   metricResponseBody, metricRequestDuration, metricSlowRequest]

/-- The fields of `Monitor` that `middleware.go` reads. `metadata` is a Go
`map[string]string`, given by its entries (keys pairwise distinct, see
`Monitor.WellFormed`); `slowTime` is an int32. -/
structure Monitor where
  metricPath : String
  excludePaths : List String
  slowTime : Int
  reqDuration : List Float64
  metadata : List (String × String)

/-- The keys of the metadata map. -/
def Monitor.keys (m : Monitor) : List String := m.metadata.map Prod.fst

/-- A Go map has each key once. -/
abbrev Monitor.WellFormed (m : Monitor) : Prop := m.keys.Nodup

/-- Go `m.metadata[v]`: the value stored under `v`, the empty string when absent. -/
def Monitor.metadataAt (m : Monitor) (v : String) : String := (m.metadata.lookup v).getD ""

/-- The orders in which a `range m.metadata` may visit the keys: every key once. -/
abbrev Monitor.RangeOrder (m : Monitor) (order : List String) : Prop := order.Perm m.keys

/-- Go `includesMetadata`. -/
def includesMetadata (m : Monitor) : Bool := decide (m.metadata.length > 0)

/-- Go `getMetadata`; `order` is the order in which this execution of
`for v := range m.metadata` visits the keys. -/
def getMetadata (m : Monitor) (order : List String) : List String × List String :=
  order.foldl (fun acc v => (acc.1 ++ [v], acc.2 ++ [m.metadataAt v])) ([], [])

/-- Go `getMetricLabelsIncludingMetadata`. -/
def getMetricLabelsIncludingMetadata (m : Monitor) (order : List String)
    (metricName : String) : List String :=
  let includes_metadata := includesMetadata m
  let metadata_labels := (getMetadata m order).1
  if metricName = metricRequestDuration then
    let metric_labels := ["uri"]
    if includes_metadata then metric_labels ++ metadata_labels else metric_labels
  else if metricName = metricURIRequestTotal then
    let metric_labels := ["uri", "method", "code"]
    if includes_metadata then metric_labels ++ metadata_labels else metric_labels
  else if metricName = metricSlowRequest then
    let metric_labels := ["uri", "method", "code"]
    if includes_metadata then metric_labels ++ metadata_labels else metric_labels
  else
    let metric_labels : List String := []
    if includes_metadata then metadata_labels else metric_labels

/-- Go `getMetricValues`. -/
def getMetricValues (m : Monitor) (order : List String) (metric_values : List String) :
    List String :=
  let includes_metadata := includesMetadata m
  let metadata_values := (getMetadata m order).2
  if includes_metadata then metric_values ++ metadata_values else metric_values

/-! ## Collaborators: metric registry and Bloom filter -/

/-- Go `MetricType`, the two kinds `initGinMetrics` registers. -/
inductive MetricType where
  | Counter
  | Histogram
deriving DecidableEq, Repr

/-- Go `Metric`, the fields `initGinMetrics` fills (`Kind` is the Go field `Type`). -/
structure Metric where
  Kind : MetricType
  Name : String
  Description : String
  Labels : List String
  Buckets : List Float64
deriving DecidableEq, Repr

/-- The value operations of a metric. -/
inductive Op where
  | Inc
  | Add (v : Float64)
  | Observe (v : Float64)
deriving DecidableEq, Repr

/-- One value update issued on the registry: `m.GetMetric(name).op(labelValues, ..)`. -/
structure Call where
  name : String
  labelValues : List String
  op : Op
deriving DecidableEq, Repr

/-- The registry operations `middleware.go` calls, on a registry of type `S`. Each
returns the registry after the call and the Go `error` (`none` for nil). -/
structure MetricOps (S : Type) where
  AddMetric : Metric → S → S × Option String
  Inc : String → List String → S → S × Option String
  Add : String → List String → Float64 → S → S × Option String
  Observe : String → List String → Float64 → S → S × Option String

/-- The operations of package `bloom` that `middleware.go` calls, on a filter of type `F`. -/
structure BloomOps (F : Type) where
  NewBloomFilter : F
  Contains : F → String → Bool
  Add : F → String → F

/-- The package state: the variable `bloomFilter`, the registry of the monitor
(`m` is the singleton `monitor`), and a log of the value updates issued so far,
which the program does not read. -/
structure State (F S : Type) where
  bloomFilter : F
  metrics : S
  calls : List Call

/-- Apply one value operation of the registry. -/
def MetricOps.apply {S : Type} (M : MetricOps S) (name : String) (labelValues : List String)
    (op : Op) (s : S) : S × Option String :=
  match op with
  | .Inc => M.Inc name labelValues s
  | .Add v => M.Add name labelValues v s
  | .Observe v => M.Observe name labelValues v s

/-- The statement `_ = m.GetMetric(name).op(labelValues, ..)`: the registry is
updated, the returned error is dropped, and the call is logged. -/
def State.update {F S : Type} (M : MetricOps S) (name : String) (labelValues : List String)
    (op : Op) (st : State F S) : State F S :=
  let r := M.apply name labelValues op st.metrics
  { st with metrics := r.1, calls := st.calls ++ [⟨name, labelValues, op⟩] }

/-- The statement `_ = monitor.AddMetric(metric)`. -/
def State.addMetric {F S : Type} (M : MetricOps S) (metric : Metric) (st : State F S) :
    State F S :=
  { st with metrics := (M.AddMetric metric st.metrics).1 }

/-! ## Initialisation -/

/-- Go `initGinMetrics`. `order name` is the key order of the `range m.metadata`
run while the labels of metric `name` are resolved. -/
def initGinMetrics {F S : Type} (B : BloomOps F) (M : MetricOps S) (m : Monitor)
    (order : String → List String) (st : State F S) : State F S :=
  let st := { st with bloomFilter := B.NewBloomFilter }
  let st := st.addMetric M
    { Kind := .Counter, Name := metricRequestTotal,
      Description := "all the server received request num.",
      Labels := getMetricLabelsIncludingMetadata m (order metricRequestTotal) metricRequestTotal,
      Buckets := [] }
  let st := st.addMetric M
    { Kind := .Counter, Name := metricRequestUVTotal,
      Description := "all the server received ip num.",
      Labels := getMetricLabelsIncludingMetadata m (order metricRequestUVTotal)
        metricRequestUVTotal,
      Buckets := [] }
  let st := st.addMetric M
    { Kind := .Counter, Name := metricURIRequestTotal,
      Description := "all the server received request num with every uri.",
      Labels := getMetricLabelsIncludingMetadata m (order metricURIRequestTotal)
        metricURIRequestTotal,
      Buckets := [] }
  let st := st.addMetric M
    { Kind := .Counter, Name := metricRequestBody,
      Description := "the server received request body size, unit byte",
      Labels := getMetricLabelsIncludingMetadata m (order metricRequestBody) metricRequestBody,
      Buckets := [] }
  let st := st.addMetric M
    { Kind := .Counter, Name := metricResponseBody,
      Description := "the server send response body size, unit byte",
      Labels := getMetricLabelsIncludingMetadata m (order metricResponseBody) metricResponseBody,
      Buckets := [] }
  let st := st.addMetric M
    { Kind := .Histogram, Name := metricRequestDuration,
      Description := "the time server took to handle the request.",
      Labels := getMetricLabelsIncludingMetadata m (order metricRequestDuration)
        metricRequestDuration,
      Buckets := m.reqDuration }
  let st := st.addMetric M
    { Kind := .Counter, Name := metricSlowRequest,
      Description := "the server handled slow requests counter, t=" ++ toString m.slowTime ++ ".",
      Labels := getMetricLabelsIncludingMetadata m (order metricSlowRequest) metricSlowRequest,
      Buckets := [] }
  st

/-- Go `Use`: `initGinMetrics`, then the interceptor and the exposition route are
registered on the router, which does not touch the package state. -/
def Use {F S : Type} (B : BloomOps F) (M : MetricOps S) (m : Monitor)
    (order : String → List String) (st : State F S) : State F S :=
  initGinMetrics B M m order st

/-- Go `UseWithoutExposingEndpoint`: `initGinMetrics`, then the interceptor is
registered on the router, which does not touch the package state. -/
def UseWithoutExposingEndpoint {F S : Type} (B : BloomOps F) (M : MetricOps S) (m : Monitor)
    (order : String → List String) (st : State F S) : State F S :=
  initGinMetrics B M m order st

/-! ## The interceptor -/

/-- What the interceptor reads of a `gin.Context`. `handled` counts how often the
rest of the handler chain has run for this request; the program does not read it. -/
structure Context where
  urlPath : String
  fullPath : String
  method : String
  contentLength : Int
  clientIP : String
  status : Int
  size : Int
  handled : Nat
deriving DecidableEq, Repr

/-- What one execution of `ginMetricHandle` takes from its environment:
`latency` is `time.Since(start)` in nanoseconds (non-negative, the clock
reading is monotonic); `order name` is the key order of the `range m.metadata` run
while the values of metric `name` are resolved; `ovf` is the result of the
implementation for `int32(f)` when `f` does not fit. -/
structure Env where
  latency : Nat
  order : String → List String
  ovf : Float64 → Int

/-- Go `strconv.Itoa`. -/
def Itoa (n : Int) : String := toString n

/-- Go `ctx.Next()`: the rest of the handler chain, `next`, runs once more. -/
def Next (next : Context → Context) (ctx : Context) : Context :=
  { next ctx with handled := ctx.handled + 1 }

/-- Go `ginMetricHandle`. -/
def ginMetricHandle {F S : Type} (B : BloomOps F) (M : MetricOps S) (m : Monitor) (env : Env)
    (ctx : Context) (st : State F S) : State F S :=
  -- set request total
  let st := st.update M metricRequestTotal
    (getMetricValues m (env.order metricRequestTotal) []) .Inc
  -- set uv
  let st :=
    if !B.Contains st.bloomFilter ctx.clientIP then
      let st := { st with bloomFilter := B.Add st.bloomFilter ctx.clientIP }
      st.update M metricRequestUVTotal
        (getMetricValues m (env.order metricRequestUVTotal) []) .Inc
    else st
  -- set uri request total
  let st := st.update M metricURIRequestTotal
    (getMetricValues m (env.order metricURIRequestTotal)
      [ctx.fullPath, ctx.method, Itoa ctx.status]) .Inc
  -- set request body size
  let st :=
    if ctx.contentLength ≥ 0 then
      st.update M metricRequestBody
        (getMetricValues m (env.order metricRequestBody) [])
        (.Add (f64OfNat ctx.contentLength.toNat))
    else st
  -- set slow request
  let latency := Seconds env.latency
  let st :=
    if toInt32 env.ovf latency > m.slowTime then
      st.update M metricSlowRequest
        (getMetricValues m (env.order metricSlowRequest)
          [ctx.fullPath, ctx.method, Itoa ctx.status]) .Inc
    else st
  -- set request duration
  let st := st.update M metricRequestDuration
    (getMetricValues m (env.order metricRequestDuration) [ctx.fullPath]) (.Observe latency)
  -- set response size
  let st :=
    if ctx.size > 0 then
      st.update M metricResponseBody
        (getMetricValues m (env.order metricResponseBody) [])
        (.Add (f64OfNat ctx.size.toNat))
    else st
  st

/-- Go `monitorInterceptor`, with `next` the rest of the handler chain. -/
def monitorInterceptor {F S : Type} (B : BloomOps F) (M : MetricOps S) (m : Monitor) (env : Env)
    (next : Context → Context) (ctx : Context) (st : State F S) : Context × State F S :=
  if ctx.urlPath = m.metricPath ∨ ctx.urlPath ∈ m.excludePaths then
    (Next next ctx, st)
  else
    let ctx := Next next ctx
    (ctx, ginMetricHandle B M m env ctx st)

/-- A measured request: the context after the handler chain and the environment
of its `ginMetricHandle`. -/
abbrev Measured := Context × Env

/-- Measured requests processed one after another. -/
def handleAll {F S : Type} (B : BloomOps F) (M : MetricOps S) (m : Monitor)
    (reqs : List Measured) (st : State F S) : State F S :=
  reqs.foldl (fun st r => ginMetricHandle B M m r.2 r.1 st) st

/-- The logged updates of the metric `name`. -/
def callsOf (name : String) (calls : List Call) : List Call :=
  calls.filter (fun c => c.name = name)

/-- The updates logged between the state `before` and the later state `after`. -/
def issued {F S : Type} (before after : State F S) : List Call :=
  after.calls.drop before.calls.length

/-! ## A Bloom filter and a registry for concrete runs -/

/-- Modelled from the spec: package `bloom` (not in `middleware.go`). A bit array of
length `m` (`bits i` for `i < m`) and `k` hash functions (`hashes`); no deletion. -/
structure BloomFilter where
  m : Nat
  hashes : List (String → Nat)
  bits : Nat → Bool

/-- Modelled from the spec: `Add(key)` sets the k bits derived from hashing `key`. -/
def BloomFilter.Add (f : BloomFilter) (key : String) : BloomFilter :=
  { f with bits := fun i => f.bits i || f.hashes.any (fun h => h key % f.m == i) }

/-- Modelled from the spec: `Contains(key)` is true iff all k corresponding bits are set. -/
def BloomFilter.Contains (f : BloomFilter) (key : String) : Bool :=
  f.hashes.all (fun h => f.bits (h key % f.m))

/-- Modelled from the spec: the `bloom` package with `NewBloomFilter` building an
empty filter of `m` bits with the hash functions `hashes`. -/
def bloomOps (m : Nat) (hashes : List (String → Nat)) : BloomOps BloomFilter where
  NewBloomFilter := ⟨m, hashes, fun _ => false⟩
  Contains := BloomFilter.Contains
  Add := BloomFilter.Add

/-- Modelled from the spec: the accumulator of one label-value tuple of a metric: the
counter value, or for a histogram the running sum and the count of each bucket. -/
structure Series where
  labelValues : List String
  sum : ℚ
  counts : List Nat
deriving DecidableEq, Repr

/-- Modelled from the spec: a registered metric with its accumulators. -/
structure Entry where
  metric : Metric
  series : List Series
deriving DecidableEq, Repr

/-- Modelled from the spec: the metric registry (`MetricRegistry`), keyed by name. -/
abbrev Registry := List Entry

/-- Modelled from the spec: `Lookup(name)`. -/
def Registry.lookup (reg : Registry) (name : String) : Option Entry :=
  reg.find? (fun e => e.metric.Name = name)

/-- Modelled from the spec: `Register(metric)` fails with DuplicateNameError if the name
exists, with InvalidDefinitionError for a histogram without buckets or a counter
with buckets. -/
def Registry.AddMetric (metric : Metric) (reg : Registry) : Registry × Option String :=
  if (reg.lookup metric.Name).isSome then (reg, some "DuplicateNameError")
  else if (metric.Kind = .Histogram ∧ metric.Buckets = [])
      ∨ (metric.Kind = .Counter ∧ metric.Buckets ≠ []) then
    (reg, some "InvalidDefinitionError")
  else (reg ++ [⟨metric, []⟩], none)

/-- Modelled from the spec: the accumulator of a label tuple, created at zero on first use. -/
def Entry.seriesAt (e : Entry) (labelValues : List String) : Series :=
  (e.series.find? (fun s => s.labelValues = labelValues)).getD
    ⟨labelValues, 0, List.replicate e.metric.Buckets.length 0⟩

/-- Modelled from the spec: add `delta` to the accumulator of a label tuple and, for
an observation, one to the count of bucket `bucket`. -/
def Entry.accumulate (e : Entry) (labelValues : List String) (delta : ℚ)
    (bucket : Option Nat) : Entry :=
  let cur := e.seriesAt labelValues
  let counts := match bucket with
    | none => cur.counts
    | some i => cur.counts.set i (cur.counts.getD i 0 + 1)
  { e with series := ⟨labelValues, cur.sum + delta, counts⟩ ::
      e.series.filter (fun s => s.labelValues ≠ labelValues) }

/-- Modelled from the spec: the bucket of an observation, the first boundary that is
at least the value, the last bucket when there is none. -/
def bucketIndex (buckets : List Float64) (v : Float64) : Nat :=
  min (buckets.findIdx (fun b => decide (v.toRat ≤ b.toRat))) (buckets.length - 1)

/-- Modelled from the spec: a value operation on the metric `name`: not found and a
wrong number of label values (LabelArityError) are reported errors that leave the
registry as it is. -/
def Registry.updateMetric (name : String) (labelValues : List String) (kind : MetricType)
    (delta : ℚ) (bucket : Metric → Option Nat) (reg : Registry) : Registry × Option String :=
  match reg.lookup name with
  | none => (reg, some "metric not found")
  | some e =>
    if e.metric.Kind ≠ kind then (reg, some "metric kind error")
    else if labelValues.length ≠ e.metric.Labels.length then (reg, some "LabelArityError")
    else
      (reg.map (fun e1 =>
        if e1.metric.Name = name then e1.accumulate labelValues delta (bucket e1.metric)
        else e1), none)

/-- Modelled from the spec: `MetricRegistry` with the value operations `Increment`,
`Add` and `Observe`. -/
def registryOps : MetricOps Registry where
  AddMetric := Registry.AddMetric
  Inc name labelValues := Registry.updateMetric name labelValues .Counter 1 (fun _ => none)
  Add name labelValues v :=
    Registry.updateMetric name labelValues .Counter v.toRat (fun _ => none)
  Observe name labelValues v :=
    Registry.updateMetric name labelValues .Histogram v.toRat
      (fun metric => some (bucketIndex metric.Buckets v))

/-- Modelled from the spec: the current value of the counter `name` for a label tuple
(zero before first use, and for a metric that is not registered). -/
def Registry.value (reg : Registry) (name : String) (labelValues : List String) : ℚ :=
  match reg.lookup name with
  | none => 0
  | some e => (e.seriesAt labelValues).sum

/-! ## Sample data -/

/-- A monitor as `newRouter` of the tests configures it, with two metadata entries. -/
def sampleMonitor : Monitor where
  metricPath := "/metrics"
  excludePaths := ["/health"]
  slowTime := 10
  reqDuration := [f64Div (f64OfNat 1) (f64OfNat 10), f64Div (f64OfNat 3) (f64OfNat 10),
    f64Div (f64OfNat 12) (f64OfNat 10), f64OfNat 5, f64OfNat 10]
  metadata := [("env", "prod"), ("region", "eu")]

/-- A request to `/product/17` answered 200 with 16 bytes. -/
def sampleContext : Context where
  urlPath := "/product/17"
  fullPath := "/product/:id"
  method := "GET"
  contentLength := 0
  clientIP := "10.0.0.1"
  status := 200
  size := 16
  handled := 0

/-- The handler of the tests: answers 200. -/
def sampleNext (ctx : Context) : Context := { ctx with status := 200, size := 16 }

/-- An environment: 1.5 ms elapsed, keys visited as `env, region`, amd64 conversion. -/
def sampleEnv : Env where
  latency := 1500000
  order := fun _ => ["env", "region"]
  ovf := fun _ => -2147483648

/-- A Bloom filter package with 64 bits and two hash functions. -/
def sampleBloom : BloomOps BloomFilter :=
  bloomOps 64 [String.length, fun s => s.toList.foldl (fun h c => 31 * h + c.toNat) 7]

/-- The package state before `Use`. -/
def sampleState : State BloomFilter Registry where
  bloomFilter := sampleBloom.NewBloomFilter
  metrics := []
  calls := []

/-- A request for the exposition path of `sampleMonitor`. -/
def excludedContext : Context := { sampleContext with urlPath := "/metrics" }

/-- The sample environment with the keys visited as `region, env`. -/
def swappedEnv : Env := { sampleEnv with order := fun _ => ["region", "env"] }

/-- The client identifiers of a sequence of measured requests. -/
def clientIPs (reqs : List Measured) : List String := reqs.map (fun r => r.1.clientIP)

/-- The number of increments of the unique-visitor counter logged between two states. -/
def uvIncrements {F S : Type} (before after : State F S) : Nat :=
  (callsOf metricRequestUVTotal (issued before after)).length

/-- Two measured requests of the sample client. -/
def sampleRequests : List Measured := [(sampleContext, sampleEnv), (sampleContext, sampleEnv)]

/-- The package state after `Use` and one measured request of the sample client. -/
def afterFirstVisit : State BloomFilter Registry :=
  ginMetricHandle sampleBloom registryOps sampleMonitor sampleEnv sampleContext
    (Use sampleBloom registryOps sampleMonitor sampleEnv.order sampleState)

/-- The state `afterFirstVisit`, then a second call of `UseWithoutExposingEndpoint`
(another router is instrumented). -/
def afterSecondUse : State BloomFilter Registry :=
  UseWithoutExposingEndpoint sampleBloom registryOps sampleMonitor sampleEnv.order
    afterFirstVisit

/-- The state `afterSecondUse`, then a second measured request of the same client. -/
def afterSecondVisit : State BloomFilter Registry :=
  ginMetricHandle sampleBloom registryOps sampleMonitor sampleEnv sampleContext afterSecondUse

/-- The sample monitor with a slow threshold of 16777216 seconds. -/
def longMonitor : Monitor := { sampleMonitor with slowTime := 16777216 }

/-- The sample environment with 16777216.999999999 seconds elapsed. -/
def longEnv : Env := { sampleEnv with latency := 16777216999999999 }

/-- The sample environment with 10.9 seconds elapsed. -/
def env10900ms : Env := { sampleEnv with latency := 10900000000 }

/-- The sample environment with 11.0 seconds elapsed. -/
def env11000ms : Env := { sampleEnv with latency := 11000000000 }

/-- The sample monitor with the largest int32 threshold. -/
def maxMonitor : Monitor := { sampleMonitor with slowTime := 2147483647 }

/-- An environment with 2^31 seconds elapsed, for any result `ovf` of an overflowing
conversion. -/
def overflowEnv (ovf : Float64 → Int) : Env :=
  { latency := 2147483648000000000, order := sampleEnv.order, ovf := ovf }

/-- Apply a list of updates to a registry, one after another, dropping the errors. -/
def MetricOps.replay {S : Type} (M : MetricOps S) (calls : List Call) (s : S) : S :=
  calls.foldl (fun s c => (M.apply c.name c.labelValues c.op s).1) s

/-- Modelled from the spec: the kind of metric a value operation is for. -/
def Op.kind : Op → MetricType
  | .Inc => .Counter
  | .Add _ => .Counter
  | .Observe _ => .Histogram

/-- Modelled from the spec: the amount a value operation adds to the accumulator. -/
def Op.amount : Op → ℚ
  | .Inc => 1
  | .Add v => v.toRat
  | .Observe v => v.toRat

/-- Modelled from the spec: the bucket a value operation counts in, if any. -/
def Op.bucket : Op → Metric → Option Nat
  | .Inc => fun _ => none
  | .Add _ => fun _ => none
  | .Observe v => fun metric => some (bucketIndex metric.Buckets v)

/-- Modelled from the spec: whether the registry accepts `n` label values for an
operation of kind `kind` on `name`: the metric is registered with that kind and with
`n` labels (otherwise not-found, kind error or LabelArityError). -/
def Registry.admits (reg : Registry) (name : String) (n : Nat) (kind : MetricType) : Bool :=
  match reg.lookup name with
  | none => false
  | some e => decide (e.metric.Kind = kind) && decide (n = e.metric.Labels.length)

/-- Modelled from the spec: whether the registry accepts an update. -/
def Registry.accepts (reg : Registry) (c : Call) : Bool :=
  reg.admits c.name c.labelValues.length c.op.kind

/-- Modelled from the spec: the sum of a metric over all its label tuples. -/
def Registry.total (reg : Registry) (name : String) : ℚ :=
  match reg.lookup name with
  | none => 0
  | some e => (e.series.map Series.sum).sum

/-- Modelled from the spec: a metric holds one accumulator per label tuple. -/
abbrev Registry.WellFormed (reg : Registry) : Prop :=
  ∀ e ∈ reg, (e.series.map Series.labelValues).Nodup

/-- The package state after `Use` on the sample state: the seven metrics are registered. -/
def registeredState : State BloomFilter Registry :=
  Use sampleBloom registryOps sampleMonitor sampleEnv.order sampleState

/-- The sample request with a content length of 2^53 + 1 bytes. -/
def bigContext : Context := { sampleContext with contentLength := 9007199254740993 }

/-- The slow-request update of the sample request. -/
def sampleSlowCall : Call :=
  ⟨metricSlowRequest, getMetricValues sampleMonitor (sampleEnv.order metricSlowRequest)
    [sampleContext.fullPath, sampleContext.method, Itoa sampleContext.status], Op.Inc⟩

/-- The label values of the body-size counters for the sample monitor. -/
def sampleBodyValues : List String :=
  getMetricValues sampleMonitor (sampleEnv.order metricRequestBody) []

/-- The base labels of a metric, the labels before the metadata labels
(`getMetricLabels_eq` proves it of the code). -/
def baseLabels (metricName : String) : List String :=
  if metricName = metricRequestDuration then ["uri"]
  else if metricName = metricURIRequestTotal then ["uri", "method", "code"]
  else if metricName = metricSlowRequest then ["uri", "method", "code"]
  else []

/-- The updates `ginMetricHandle` issues for a measured request, in program order
(`handle_calls` proves it of the code); `seen` is the answer of
`bloomFilter.Contains(clientIP)`. -/
def requests (m : Monitor) (env : Env) (ctx : Context) (seen : Bool) : List Call :=
  [⟨metricRequestTotal, getMetricValues m (env.order metricRequestTotal) [], Op.Inc⟩]
  ++ (if seen then []
      else [⟨metricRequestUVTotal, getMetricValues m (env.order metricRequestUVTotal) [], Op.Inc⟩])
  ++ [⟨metricURIRequestTotal, getMetricValues m (env.order metricURIRequestTotal)
        [ctx.fullPath, ctx.method, Itoa ctx.status], Op.Inc⟩]
  ++ (if ctx.contentLength ≥ 0 then
        [⟨metricRequestBody, getMetricValues m (env.order metricRequestBody) [],
          Op.Add (f64OfNat ctx.contentLength.toNat)⟩]
      else [])
  ++ (if toInt32 env.ovf (Seconds env.latency) > m.slowTime then
        [⟨metricSlowRequest, getMetricValues m (env.order metricSlowRequest)
          [ctx.fullPath, ctx.method, Itoa ctx.status], Op.Inc⟩]
      else [])
  ++ [⟨metricRequestDuration, getMetricValues m (env.order metricRequestDuration)
        [ctx.fullPath], Op.Observe (Seconds env.latency)⟩]
  ++ (if ctx.size > 0 then
        [⟨metricResponseBody, getMetricValues m (env.order metricResponseBody) [],
          Op.Add (f64OfNat ctx.size.toNat)⟩]
      else [])

/-! ## float64 rounding -/

theorem log2Fuel_eq_log (fuel n : Nat) (h : n ≤ fuel) : log2Fuel fuel n = Nat.log 2 n := by
  induction fuel generalizing n with
  | zero =>
    have : n = 0 := by omega
    subst this
    simp [log2Fuel]
  | succ f ih =>
    unfold log2Fuel
    split_ifs with h2
    · exact (Nat.log_of_lt h2).symm
    · have h3 : 2 ≤ n := by omega
      rw [ih (n / 2) (by omega)]
      exact (Nat.log_of_one_lt_of_le (by norm_num) h3).symm

theorem ilog2_eq_log (n : Nat) : ilog2 n = Nat.log 2 n := log2Fuel_eq_log n n le_rfl

theorem ilog2_le (n : Nat) (h : n ≠ 0) : 2 ^ ilog2 n ≤ n := by
  rw [ilog2_eq_log]; exact Nat.pow_log_le_self 2 h

theorem lt_ilog2 (n : Nat) : n < 2 ^ (ilog2 n + 1) := by
  rw [ilog2_eq_log]; exact Nat.lt_pow_succ_log_self (by norm_num) n

theorem roundQuot_spec (N D : Nat) (hD : 0 < D) :
    2 * (roundQuot N D * D) ≤ 2 * N + D ∧ 2 * N ≤ 2 * (roundQuot N D * D) + D := by
  have h1 := Nat.div_add_mod N D
  have h2 := Nat.mod_lt N hD
  have e1 : (N / D + 1) * D = D * (N / D) + D := by ring
  have e2 : N / D * D = D * (N / D) := by ring
  unfold roundQuot
  simp only []
  split_ifs <;> simp only [e1, e2] <;> omega

theorem roundNearestEven_eq (a b : Nat) (ha : a ≠ 0) (hb : b ≠ 0) :
    roundNearestEven a b
      = if dropBits a b ≤ 64 + ilog2 b then
          ⟨roundQuot (a * 2 ^ (64 + ilog2 b)) (b * 2 ^ dropBits a b),
            64 + ilog2 b - dropBits a b⟩
        else ⟨roundQuot (a * 2 ^ (64 + ilog2 b)) (b * 2 ^ dropBits a b)
          * 2 ^ (dropBits a b - (64 + ilog2 b)), 0⟩ := by
  simp [roundNearestEven, ha, hb, dropBits]

theorem dropBits_spec (a b : Nat) (ha : a ≠ 0) (hb : b ≠ 0) :
    2 ^ 52 * (b * 2 ^ dropBits a b) ≤ a * 2 ^ (64 + ilog2 b)
    ∧ a * 2 ^ (64 + ilog2 b) < 2 ^ 53 * (b * 2 ^ dropBits a b) := by
  set U := 64 + ilog2 b with hU
  set Q := a * 2 ^ U / b with hQ
  have hbpos : 0 < b := Nat.pos_of_ne_zero hb
  have hapos : 0 < a := Nat.pos_of_ne_zero ha
  have hblt := lt_ilog2 b
  have h63 : 2 ^ 63 * b ≤ a * 2 ^ U := by
    have : 2 ^ 63 * b ≤ 2 ^ 63 * 2 ^ (ilog2 b + 1) := Nat.mul_le_mul_left _ hblt.le
    have e : 2 ^ 63 * 2 ^ (ilog2 b + 1) = 2 ^ U := by rw [hU, ← pow_add]; congr 1; omega
    calc 2 ^ 63 * b ≤ 2 ^ U := by rw [← e]; exact this
      _ ≤ a * 2 ^ U := Nat.le_mul_of_pos_left _ hapos
  have hQ63 : 2 ^ 63 ≤ Q := (Nat.le_div_iff_mul_le hbpos).mpr h63
  have hQne : Q ≠ 0 := by
    have : 0 < 2 ^ 63 := by positivity
    omega
  have hl1 := ilog2_le Q hQne
  have hl2 := lt_ilog2 Q
  have hl63 : 63 ≤ ilog2 Q := by
    by_contra hcon
    have : ilog2 Q + 1 ≤ 63 := by omega
    have := Nat.pow_le_pow_right (show 0 < 2 by norm_num) this
    omega
  have ht : dropBits a b + 52 = ilog2 Q := by
    unfold dropBits
    rw [← hU, ← hQ]
    omega
  have hQlo : 2 ^ 52 * 2 ^ dropBits a b ≤ Q := by
    rw [← pow_add, add_comm, ht]; exact hl1
  have hQhi : Q < 2 ^ 53 * 2 ^ dropBits a b := by
    rw [← pow_add]
    have : 53 + dropBits a b = ilog2 Q + 1 := by omega
    rw [this]; exact hl2
  constructor
  · have := (Nat.le_div_iff_mul_le hbpos).mp hQlo
    calc 2 ^ 52 * (b * 2 ^ dropBits a b) = 2 ^ 52 * 2 ^ dropBits a b * b := by ring
      _ ≤ a * 2 ^ U := this
  · have := (Nat.div_lt_iff_lt_mul hbpos).mp hQhi
    calc a * 2 ^ U < 2 ^ 53 * 2 ^ dropBits a b * b := this
      _ = 2 ^ 53 * (b * 2 ^ dropBits a b) := by ring

/-- Exactness: a natural number below 2^53 converts to float64 without rounding. -/
theorem f64OfNat_exact (n : Nat) (hn : n < 2 ^ 53) :
    (f64OfNat n).num = n * 2 ^ (f64OfNat n).scale := by
  by_cases h0 : n = 0
  · subst h0; simp [f64OfNat, roundNearestEven]
  · have hlog : ilog2 1 = 0 := by simp [ilog2_eq_log]
    have hspec := dropBits_spec n 1 h0 one_ne_zero
    have heq := roundNearestEven_eq n 1 h0 one_ne_zero
    rw [hlog] at hspec heq
    simp only [Nat.add_zero, one_mul] at hspec heq
    set t := dropBits n 1 with ht
    have htle : t ≤ 64 := by
      by_contra hcon
      have h65 : 65 ≤ t := by omega
      have h1 : 2 ^ 52 * 2 ^ 65 ≤ 2 ^ 52 * 2 ^ t :=
        Nat.mul_le_mul_left _ (Nat.pow_le_pow_right (by norm_num) h65)
      have h2 : n * 2 ^ 64 < 2 ^ 53 * 2 ^ 64 :=
        Nat.mul_lt_mul_of_pos_right hn (by positivity)
      have h3 : (2 : Nat) ^ 53 * 2 ^ 64 = 2 ^ 52 * 2 ^ 65 := by norm_num
      omega
    have hsplit : (2 : Nat) ^ 64 = 2 ^ (64 - t) * 2 ^ t := by
      rw [← pow_add]; congr 1; omega
    have hq : roundQuot (n * 2 ^ 64) (2 ^ t) = n * 2 ^ (64 - t) := by
      have hpos : 0 < 2 ^ t := by positivity
      have e : n * 2 ^ 64 = n * 2 ^ (64 - t) * 2 ^ t := by rw [hsplit]; ring
      unfold roundQuot
      simp only [e, Nat.mul_mod_left, Nat.mul_div_cancel _ hpos, Nat.mul_zero]
      simp [hpos]
    unfold f64OfNat
    rw [heq, if_pos htle, hq]

theorem f64OfNat_zero : f64OfNat 0 = ⟨0, 0⟩ := by simp [f64OfNat, roundNearestEven]

/-- A quotient of at most 0.999999999 rounds to a float64 below 1 - 2^-30. -/
theorem roundNearestEven_frac (a b : Nat) (hb : b ≠ 0)
    (hab : 1000000000 * a ≤ 999999999 * b) :
    2 ^ 30 * (roundNearestEven a b).num + 2 ^ (roundNearestEven a b).scale
      < 2 ^ 30 * 2 ^ (roundNearestEven a b).scale := by
  by_cases h0 : a = 0
  · subst h0; simp [roundNearestEven]
  · have hspec := dropBits_spec a b h0 hb
    have heq := roundNearestEven_eq a b h0 hb
    set U := 64 + ilog2 b with hU
    set t := dropBits a b with ht
    have hbpos : 0 < b := Nat.pos_of_ne_zero hb
    have hDpos : 0 < b * 2 ^ t := by positivity
    have hrq := roundQuot_spec (a * 2 ^ U) (b * 2 ^ t) hDpos
    set q1 := roundQuot (a * 2 ^ U) (b * 2 ^ t) with hq1
    have hab' : a < b := by omega
    -- the exponent: t + 53 ≤ U
    have htU : t + 53 ≤ U := by
      by_contra hcon
      have hle : U ≤ t + 52 := by omega
      have h1 : a * 2 ^ U < b * 2 ^ U := Nat.mul_lt_mul_of_pos_right hab' (by positivity)
      have h2 : b * 2 ^ U ≤ b * 2 ^ (t + 52) :=
        Nat.mul_le_mul_left _ (Nat.pow_le_pow_right (by norm_num) hle)
      have h3 : b * 2 ^ (t + 52) = 2 ^ 52 * (b * 2 ^ t) := by rw [pow_add]; ring
      omega
    have htle : t ≤ U := by omega
    rw [heq, if_pos htle]
    simp only []
    set k := U - t with hk
    have hUk : 2 ^ U = 2 ^ k * 2 ^ t := by rw [← pow_add]; congr 1; omega
    have hK : 2 ^ 53 ≤ 2 ^ k := Nat.pow_le_pow_right (by norm_num) (by omega)
    -- cancel D = b * 2 ^ t
    have hN : 1000000000 * (a * 2 ^ U) ≤ 999999999 * 2 ^ k * (b * 2 ^ t) := by
      have : 1000000000 * a * 2 ^ U ≤ 999999999 * b * 2 ^ U := Nat.mul_le_mul_right _ hab
      calc 1000000000 * (a * 2 ^ U) = 1000000000 * a * 2 ^ U := by ring
        _ ≤ 999999999 * b * 2 ^ U := this
        _ = 999999999 * 2 ^ k * (b * 2 ^ t) := by rw [hUk]; ring
    have hmain : (2 * 1000000000 * q1) * (b * 2 ^ t)
        ≤ (2 * 999999999 * 2 ^ k + 1000000000) * (b * 2 ^ t) := by
      have e1 : (2 * 1000000000 * q1) * (b * 2 ^ t) = 1000000000 * (2 * (q1 * (b * 2 ^ t))) := by
        ring
      have e2 : (2 * 999999999 * 2 ^ k + 1000000000) * (b * 2 ^ t)
          = 2 * (999999999 * 2 ^ k * (b * 2 ^ t)) + 1000000000 * (b * 2 ^ t) := by ring
      rw [e1, e2]
      have := hrq.1
      omega
    have hcancel := Nat.le_of_mul_le_mul_right hmain hDpos
    omega

/-- A quotient in `[s, s + 1 - 2^-30)` with `s < 2^24` rounds to a float64 whose integer
part is `s`. -/
theorem roundNearestEven_trunc (a b s : Nat) (ha : a ≠ 0) (hb : b ≠ 0) (hs : s < 2 ^ 24)
    (hlo : s * b ≤ a) (hhi : 2 ^ 30 * a + b < (s + 1) * 2 ^ 30 * b) :
    (roundNearestEven a b).trunc = s := by
  have hspec := dropBits_spec a b ha hb
  have heq := roundNearestEven_eq a b ha hb
  set U := 64 + ilog2 b with hU
  set t := dropBits a b with ht
  have hbpos : 0 < b := Nat.pos_of_ne_zero hb
  have hDpos : 0 < b * 2 ^ t := by positivity
  have hrq := roundQuot_spec (a * 2 ^ U) (b * 2 ^ t) hDpos
  set q1 := roundQuot (a * 2 ^ U) (b * 2 ^ t) with hq1
  have hab : a < 2 ^ 24 * b := by
    have h1 : (s + 1) * 2 ^ 30 * b ≤ 2 ^ 24 * 2 ^ 30 * b :=
      Nat.mul_le_mul_right _ (Nat.mul_le_mul_right _ (by omega))
    have h2 : 2 ^ 30 * a < 2 ^ 30 * (2 ^ 24 * b) := by
      calc 2 ^ 30 * a < (s + 1) * 2 ^ 30 * b := by omega
        _ ≤ 2 ^ 24 * 2 ^ 30 * b := h1
        _ = 2 ^ 30 * (2 ^ 24 * b) := by ring
    exact Nat.lt_of_mul_lt_mul_left h2
  have htU : t + 29 ≤ U := by
    by_contra hcon
    have hle : U + 24 ≤ t + 52 := by omega
    have h1 : a * 2 ^ U < 2 ^ 24 * b * 2 ^ U := Nat.mul_lt_mul_of_pos_right hab (by positivity)
    have h2 : 2 ^ 24 * b * 2 ^ U = b * 2 ^ (U + 24) := by rw [pow_add]; ring
    have h3 : b * 2 ^ (U + 24) ≤ b * 2 ^ (t + 52) :=
      Nat.mul_le_mul_left _ (Nat.pow_le_pow_right (by norm_num) hle)
    have h4 : b * 2 ^ (t + 52) = 2 ^ 52 * (b * 2 ^ t) := by rw [pow_add]; ring
    omega
  have htle : t ≤ U := by omega
  rw [heq, if_pos htle]
  simp only [Float64.trunc]
  set k := U - t with hk
  have hUk : 2 ^ U = 2 ^ k * 2 ^ t := by rw [← pow_add]; congr 1; omega
  have hK : 2 ^ 29 ≤ 2 ^ k := Nat.pow_le_pow_right (by norm_num) (by omega)
  have hKpos : 0 < 2 ^ k := by positivity
  -- lower bound
  have hlow : s * 2 ^ k ≤ q1 := by
    have h1 : (2 * (s * 2 ^ k)) * (b * 2 ^ t) ≤ (2 * q1 + 1) * (b * 2 ^ t) := by
      have e1 : (2 * (s * 2 ^ k)) * (b * 2 ^ t) = 2 * (s * b * 2 ^ U) := by rw [hUk]; ring
      have e2 : (2 * q1 + 1) * (b * 2 ^ t) = 2 * (q1 * (b * 2 ^ t)) + b * 2 ^ t := by ring
      have e3 : s * b * 2 ^ U ≤ a * 2 ^ U := Nat.mul_le_mul_right _ hlo
      rw [e1, e2]
      have := hrq.2
      omega
    have := Nat.le_of_mul_le_mul_right h1 hDpos
    omega
  -- upper bound
  have hupp : q1 < (s + 1) * 2 ^ k := by
    have hN : 2 ^ 30 * (a * 2 ^ U) + 2 ^ k * (b * 2 ^ t) < (s + 1) * 2 ^ 30 * 2 ^ k * (b * 2 ^ t) := by
      have : (2 ^ 30 * a + b) * 2 ^ U < (s + 1) * 2 ^ 30 * b * 2 ^ U :=
        Nat.mul_lt_mul_of_pos_right hhi (by positivity)
      calc 2 ^ 30 * (a * 2 ^ U) + 2 ^ k * (b * 2 ^ t) = (2 ^ 30 * a + b) * 2 ^ U := by
            rw [hUk]; ring
        _ < (s + 1) * 2 ^ 30 * b * 2 ^ U := this
        _ = (s + 1) * 2 ^ 30 * 2 ^ k * (b * 2 ^ t) := by rw [hUk]; ring
    have h1 : (2 ^ 31 * q1 + 2 * 2 ^ k) * (b * 2 ^ t)
        < (2 * ((s + 1) * 2 ^ 30 * 2 ^ k) + 2 ^ 30) * (b * 2 ^ t) := by
      have e1 : (2 ^ 31 * q1 + 2 * 2 ^ k) * (b * 2 ^ t)
          = 2 ^ 30 * (2 * (q1 * (b * 2 ^ t))) + 2 * (2 ^ k * (b * 2 ^ t)) := by ring
      have e2 : (2 * ((s + 1) * 2 ^ 30 * 2 ^ k) + 2 ^ 30) * (b * 2 ^ t)
          = 2 * ((s + 1) * 2 ^ 30 * 2 ^ k * (b * 2 ^ t)) + 2 ^ 30 * (b * 2 ^ t) := by ring
      rw [e1, e2]
      have := hrq.1
      omega
    have h2 := Nat.lt_of_mul_lt_mul_right h1
    have e3 : (s + 1) * 2 ^ 30 * 2 ^ k = 2 ^ 30 * ((s + 1) * 2 ^ k) := by ring
    rw [e3] at h2
    omega
  exact Nat.div_eq_of_lt_le (by rw [Nat.mul_comm] at hlow; rw [Nat.mul_comm]; exact hlow)
    hupp

theorem Seconds_trunc (d : Nat) (hd : d < 16777216 * 1000000000) :
    (Seconds d).trunc = d / 1000000000 := by
  have hsec : d / 1000000000 < 2 ^ 24 := by
    rw [Nat.div_lt_iff_lt_mul (by norm_num)]
    calc d < 16777216 * 1000000000 := hd
      _ = 2 ^ 24 * 1000000000 := by norm_num
  have hnsec : d % 1000000000 < 1000000000 := Nat.mod_lt _ (by norm_num)
  set sec := d / 1000000000 with hsecdef
  set nsec := d % 1000000000 with hnsecdef
  have hx := f64OfNat_exact sec (lt_trans hsec (by norm_num))
  have hn := f64OfNat_exact nsec (lt_trans hnsec (by norm_num))
  have hz := f64OfNat_exact 1000000000 (by norm_num)
  unfold Seconds
  set x := f64OfNat sec with hxdef
  set y := f64Div (f64OfNat nsec) (f64OfNat 1000000000) with hydef
  have hy : 2 ^ 30 * y.num + 2 ^ y.scale < 2 ^ 30 * 2 ^ y.scale := by
    rw [hydef]
    unfold f64Div
    apply roundNearestEven_frac
    · rw [hz]; positivity
    · rw [hn, hz]
      have e1 : 1000000000 * (nsec * 2 ^ (f64OfNat nsec).scale * 2 ^ (f64OfNat 1000000000).scale)
          = (1000000000 * nsec) * (2 ^ (f64OfNat nsec).scale * 2 ^ (f64OfNat 1000000000).scale) := by
        ring
      have e2 : 999999999 * (1000000000 * 2 ^ (f64OfNat 1000000000).scale * 2 ^ (f64OfNat nsec).scale)
          = (999999999 * 1000000000) * (2 ^ (f64OfNat nsec).scale * 2 ^ (f64OfNat 1000000000).scale) := by
        ring
      rw [e1, e2]
      exact Nat.mul_le_mul_right _ (by omega)
  unfold f64Add
  rw [hx]
  set xs := x.scale
  set yn := y.num
  set ys := y.scale
  have hbne : (2 : Nat) ^ (xs + ys) ≠ 0 := by positivity
  have hsplit : (2 : Nat) ^ (xs + ys) = 2 ^ xs * 2 ^ ys := pow_add 2 xs ys
  by_cases ha : sec * 2 ^ xs * 2 ^ ys + yn * 2 ^ xs = 0
  · rw [ha]
    have h1 : sec * 2 ^ xs * 2 ^ ys = 0 := by omega
    have h2 : sec = 0 := by
      rcases Nat.mul_eq_zero.mp h1 with h | h
      · rcases Nat.mul_eq_zero.mp h with h | h
        · exact h
        · exact absurd h (by positivity)
      · exact absurd h (by positivity)
    rw [h2]
    simp [roundNearestEven, Float64.trunc]
  · apply roundNearestEven_trunc _ _ sec ha hbne hsec
    · rw [hsplit]
      have : sec * (2 ^ xs * 2 ^ ys) = sec * 2 ^ xs * 2 ^ ys := by ring
      omega
    · rw [hsplit]
      have hpos : 0 < 2 ^ xs := by positivity
      have h1 : (2 ^ 30 * yn + 2 ^ ys) * 2 ^ xs < 2 ^ 30 * 2 ^ ys * 2 ^ xs :=
        Nat.mul_lt_mul_of_pos_right hy hpos
      have e1 : 2 ^ 30 * (sec * 2 ^ xs * 2 ^ ys + yn * 2 ^ xs) + 2 ^ xs * 2 ^ ys
          = 2 ^ 30 * sec * (2 ^ xs * 2 ^ ys) + (2 ^ 30 * yn + 2 ^ ys) * 2 ^ xs := by ring
      have e2 : (sec + 1) * 2 ^ 30 * (2 ^ xs * 2 ^ ys)
          = 2 ^ 30 * sec * (2 ^ xs * 2 ^ ys) + 2 ^ 30 * 2 ^ ys * 2 ^ xs := by ring
      rw [e1, e2]
      omega

/-! ## Label resolution -/

theorem getMetadata_fold (m : Monitor) (order : List String) (acc : List String × List String) :
    order.foldl (fun acc v => (acc.1 ++ [v], acc.2 ++ [m.metadataAt v])) acc
      = (acc.1 ++ order, acc.2 ++ order.map m.metadataAt) := by
  induction order generalizing acc with
  | nil => simp
  | cons v rest ih => simp [ih]

theorem getMetadata_eq (m : Monitor) (order : List String) :
    getMetadata m order = (order, order.map m.metadataAt) := by
  simp [getMetadata, getMetadata_fold]

theorem rangeOrder_length {m : Monitor} {order : List String} (h : m.RangeOrder order) :
    order.length = m.metadata.length := by
  have := h.length_eq
  simpa [Monitor.keys] using this

theorem rangeOrder_nil {m : Monitor} {order : List String} (h : m.RangeOrder order)
    (he : includesMetadata m = false) : order = [] := by
  have hl := rangeOrder_length h
  simp [includesMetadata] at he
  rw [he] at hl
  simpa using hl

theorem getMetricValues_eq (m : Monitor) (order : List String) (h : m.RangeOrder order)
    (vs : List String) : getMetricValues m order vs = vs ++ order.map m.metadataAt := by
  unfold getMetricValues
  rw [getMetadata_eq]
  cases he : includesMetadata m
  · simp [rangeOrder_nil h he]
  · simp

theorem getMetricValues_length (m : Monitor) (order : List String) (h : m.RangeOrder order)
    (vs : List String) : (getMetricValues m order vs).length = vs.length + m.metadata.length := by
  rw [getMetricValues_eq m order h, List.length_append, List.length_map, rangeOrder_length h]

theorem getMetricLabels_eq (m : Monitor) (order : List String) (h : m.RangeOrder order)
    (metricName : String) :
    getMetricLabelsIncludingMetadata m order metricName = baseLabels metricName ++ order := by
  unfold getMetricLabelsIncludingMetadata baseLabels
  rw [getMetadata_eq]
  cases he : includesMetadata m
  · have := rangeOrder_nil h he
    subst this
    split_ifs <;> simp
  · split_ifs <;> simp

/-! ## The log of `ginMetricHandle` -/

@[simp] theorem update_bloomFilter {F S : Type} (M : MetricOps S) (name : String)
    (lv : List String) (op : Op) (st : State F S) :
    (st.update M name lv op).bloomFilter = st.bloomFilter := rfl

@[simp] theorem update_calls {F S : Type} (M : MetricOps S) (name : String) (lv : List String)
    (op : Op) (st : State F S) :
    (st.update M name lv op).calls = st.calls ++ [⟨name, lv, op⟩] := rfl

theorem handle_calls {F S : Type} (B : BloomOps F) (M : MetricOps S) (m : Monitor) (env : Env)
    (ctx : Context) (st : State F S) :
    (ginMetricHandle B M m env ctx st).calls
      = st.calls ++ requests m env ctx (B.Contains st.bloomFilter ctx.clientIP) := by
  unfold ginMetricHandle requests
  simp only [update_bloomFilter]
  cases B.Contains st.bloomFilter ctx.clientIP <;> simp only [Bool.not_false, Bool.not_true, if_true, Bool.false_eq_true, if_false] <;> split_ifs <;> simp

theorem handle_issued {F S : Type} (B : BloomOps F) (M : MetricOps S) (m : Monitor) (env : Env)
    (ctx : Context) (st : State F S) :
    issued st (ginMetricHandle B M m env ctx st)
      = requests m env ctx (B.Contains st.bloomFilter ctx.clientIP) := by
  simp [issued, handle_calls]

theorem handle_bloomFilter {F S : Type} (B : BloomOps F) (M : MetricOps S) (m : Monitor)
    (env : Env) (ctx : Context) (st : State F S) :
    (ginMetricHandle B M m env ctx st).bloomFilter
      = if B.Contains st.bloomFilter ctx.clientIP then st.bloomFilter
        else B.Add st.bloomFilter ctx.clientIP := by
  unfold ginMetricHandle
  simp only [update_bloomFilter]
  cases B.Contains st.bloomFilter ctx.clientIP <;> simp only [Bool.not_false, Bool.not_true, if_true, Bool.false_eq_true, if_false] <;> split_ifs <;> simp

theorem requests_forall (m : Monitor) (env : Env) (ctx : Context) (seen : Bool)
    (P : Call → Prop)
    (h1 : P ⟨metricRequestTotal, getMetricValues m (env.order metricRequestTotal) [], Op.Inc⟩)
    (h2 : P ⟨metricRequestUVTotal, getMetricValues m (env.order metricRequestUVTotal) [],
      Op.Inc⟩)
    (h3 : P ⟨metricURIRequestTotal, getMetricValues m (env.order metricURIRequestTotal)
      [ctx.fullPath, ctx.method, Itoa ctx.status], Op.Inc⟩)
    (h4 : P ⟨metricRequestBody, getMetricValues m (env.order metricRequestBody) [],
      Op.Add (f64OfNat ctx.contentLength.toNat)⟩)
    (h5 : P ⟨metricSlowRequest, getMetricValues m (env.order metricSlowRequest)
      [ctx.fullPath, ctx.method, Itoa ctx.status], Op.Inc⟩)
    (h6 : P ⟨metricRequestDuration, getMetricValues m (env.order metricRequestDuration)
      [ctx.fullPath], Op.Observe (Seconds env.latency)⟩)
    (h7 : P ⟨metricResponseBody, getMetricValues m (env.order metricResponseBody) [],
      Op.Add (f64OfNat ctx.size.toNat)⟩) :
    ∀ c ∈ requests m env ctx seen, P c := by
  intro c hc
  unfold requests at hc
  simp only [List.mem_append, List.mem_singleton] at hc
  rcases hc with ((((((hc | hc) | hc) | hc) | hc) | hc) | hc)
  · subst hc; exact h1
  · split_ifs at hc
    · simp at hc
    · simp only [List.mem_singleton] at hc; subst hc; exact h2
  · subst hc; exact h3
  · split_ifs at hc
    · simp only [List.mem_singleton] at hc; subst hc; exact h4
    · simp at hc
  · split_ifs at hc
    · simp only [List.mem_singleton] at hc; subst hc; exact h5
    · simp at hc
  · subst hc; exact h6
  · split_ifs at hc
    · simp only [List.mem_singleton] at hc; subst hc; exact h7
    · simp at hc

theorem callsOf_requests_total (m : Monitor) (env : Env) (ctx : Context) (seen : Bool) :
    callsOf metricRequestTotal (requests m env ctx seen)
      = [⟨metricRequestTotal, getMetricValues m (env.order metricRequestTotal) [], Op.Inc⟩] := by
  unfold requests callsOf
  simp only [List.filter_append]
  split_ifs <;> simp [List.filter, metricRequestTotal, metricRequestUVTotal,
    metricURIRequestTotal, metricRequestBody, metricResponseBody, metricRequestDuration,
    metricSlowRequest]

/-! ## Claims on label resolution -/

/-- C6: for every metadata map and every order in which `range` visits its keys,
`getMetricLabelsIncludingMetadata` returns `uri` followed by the metadata label names
for gin_request_duration, `uri, method, code` followed by them for
gin_uri_request_total and gin_slow_request_total, and exactly the metadata label
names for every other name (none when the metadata is empty); every key of the map
is appended exactly once and nothing else is. -/
theorem getMetricLabelsIncludingMetadata_spec (m : Monitor) (order : List String)
    (hw : m.WellFormed) (h : m.RangeOrder order) :
    getMetricLabelsIncludingMetadata m order metricRequestDuration = ["uri"] ++ order
    ∧ getMetricLabelsIncludingMetadata m order metricURIRequestTotal
        = ["uri", "method", "code"] ++ order
    ∧ getMetricLabelsIncludingMetadata m order metricSlowRequest
        = ["uri", "method", "code"] ++ order
    ∧ (∀ name, name ≠ metricRequestDuration → name ≠ metricURIRequestTotal →
        name ≠ metricSlowRequest → getMetricLabelsIncludingMetadata m order name = order)
    ∧ (∀ k, k ∈ m.keys → order.count k = 1)
    ∧ (∀ k, k ∉ m.keys → order.count k = 0)
    ∧ (m.metadata = [] → order = []) := by
  refine ⟨?_, ?_, ?_, ?_, ?_, ?_, ?_⟩
  · rw [getMetricLabels_eq m order h]; rfl
  · rw [getMetricLabels_eq m order h]; rfl
  · rw [getMetricLabels_eq m order h]; rfl
  · intro name h1 h2 h3
    rw [getMetricLabels_eq m order h]
    simp [baseLabels, h1, h2, h3]
  · intro k hk
    rw [h.count_eq]
    exact List.count_eq_one_of_mem hw hk
  · intro k hk
    rw [h.count_eq]
    exact List.count_eq_zero_of_not_mem hk
  · intro he
    have := rangeOrder_length h
    rw [he] at this
    simpa using this

/-- The labels of gin_slow_request_total for the sample monitor when `range` visits
`region` before `env`. -/
theorem getMetricLabelsIncludingMetadata_spec_witness :
    sampleMonitor.WellFormed ∧ sampleMonitor.RangeOrder ["region", "env"]
    ∧ getMetricLabelsIncludingMetadata sampleMonitor ["region", "env"] metricSlowRequest
        = ["uri", "method", "code", "region", "env"] :=
  ⟨by decide, by decide,
    (getMetricLabelsIncludingMetadata_spec sampleMonitor ["region", "env"]
      (by decide) (by decide)).2.2.1⟩

/-- C5 (fails on the code): two resolutions of the labels of one metric, whose
`range` statements visit the two keys of the metadata map in different orders,
return different label lists. -/
theorem labels_depend_on_range_order :
    sampleMonitor.WellFormed
    ∧ sampleMonitor.RangeOrder ["env", "region"] ∧ sampleMonitor.RangeOrder ["region", "env"]
    ∧ getMetricLabelsIncludingMetadata sampleMonitor ["env", "region"] metricRequestTotal
        = ["env", "region"]
    ∧ getMetricLabelsIncludingMetadata sampleMonitor ["region", "env"] metricRequestTotal
        = ["region", "env"] := by
  refine ⟨by decide, by decide, by decide, by decide, by decide⟩

/-- C8 (fails on the code): the labels of gin_request_total are registered as
`env, region`; a later request whose `range` visits the keys as `region, env`
updates it with the values `eu, prod`, so the value of `region` is recorded
under the label `env`. -/
theorem values_not_in_schema_order :
    sampleMonitor.RangeOrder (sampleEnv.order metricRequestTotal)
    ∧ sampleMonitor.RangeOrder (swappedEnv.order metricRequestTotal)
    ∧ getMetricLabelsIncludingMetadata sampleMonitor (sampleEnv.order metricRequestTotal)
        metricRequestTotal = ["env", "region"]
    ∧ callsOf metricRequestTotal (issued sampleState
        (ginMetricHandle sampleBloom registryOps sampleMonitor swappedEnv sampleContext
          sampleState))
        = [⟨metricRequestTotal, ["eu", "prod"], Op.Inc⟩]
    ∧ sampleMonitor.metadataAt "env" = "prod" ∧ sampleMonitor.metadataAt "region" = "eu" := by
  refine ⟨by decide, by decide, by decide, ?_, by decide, by decide⟩
  rw [handle_issued, callsOf_requests_total]
  decide

/-! ## Claims on the interceptor -/

/-- C1: for every monitor and every request whose URL path equals `metricPath` or
is an element of `excludePaths`, `monitorInterceptor` leaves the package state (the
Bloom filter, every accumulator of the registry, and the log of updates, to which
nothing is added) exactly as it was. -/
theorem monitorInterceptor_excluded {F S : Type} (B : BloomOps F) (M : MetricOps S)
    (m : Monitor) (env : Env) (next : Context → Context) (ctx : Context) (st : State F S)
    (h : ctx.urlPath = m.metricPath ∨ ctx.urlPath ∈ m.excludePaths) :
    (monitorInterceptor B M m env next ctx st).2 = st := by
  simp [monitorInterceptor, h]

/-- A request for `/metrics`, the exposition path of the sample monitor, leaves the sample
state as it is. -/
theorem monitorInterceptor_excluded_witness :
    (excludedContext.urlPath = sampleMonitor.metricPath
      ∨ excludedContext.urlPath ∈ sampleMonitor.excludePaths)
    ∧ (monitorInterceptor sampleBloom registryOps sampleMonitor sampleEnv sampleNext
        excludedContext sampleState).2 = sampleState :=
  ⟨by decide, monitorInterceptor_excluded _ _ _ _ _ _ _ (by decide)⟩

/-- C10: for every request, excluded or measured, and whatever the registry
operations do and return, `monitorInterceptor` runs the rest of the handler chain
exactly once and hands back the context exactly as the chain left it; in
particular the response status is the one the handler set. -/
theorem monitorInterceptor_runs_next_once {F S : Type} (B : BloomOps F) (M : MetricOps S)
    (m : Monitor) (env : Env) (next : Context → Context) (ctx : Context) (st : State F S) :
    (monitorInterceptor B M m env next ctx st).1 = Next next ctx
    ∧ (monitorInterceptor B M m env next ctx st).1.handled = ctx.handled + 1
    ∧ (monitorInterceptor B M m env next ctx st).1.status = (next ctx).status := by
  unfold monitorInterceptor
  split_ifs <;> simp [Next]

/-- C7: for every metadata map, whatever orders the `range` statements take at
registration and at update time, every update `ginMetricHandle` issues is on a
metric of the catalog and passes exactly as many label values as
`getMetricLabelsIncludingMetadata` returns labels for that metric. -/
theorem handle_label_arity {F S : Type} (B : BloomOps F) (M : MetricOps S) (m : Monitor)
    (env : Env) (ctx : Context) (st : State F S) (regOrder : String → List String)
    (hreg : ∀ n, m.RangeOrder (regOrder n)) (henv : ∀ n, m.RangeOrder (env.order n)) :
    ∀ c ∈ issued st (ginMetricHandle B M m env ctx st),
      c.name ∈ catalog
      ∧ c.labelValues.length
          = (getMetricLabelsIncludingMetadata m (regOrder c.name) c.name).length := by
  have hl : ∀ n, (getMetricLabelsIncludingMetadata m (regOrder n) n).length
      = (baseLabels n).length + m.metadata.length := by
    intro n
    rw [getMetricLabels_eq m _ (hreg n), List.length_append, rangeOrder_length (hreg n)]
  rw [handle_issued]
  apply requests_forall <;> refine ⟨by simp [catalog], ?_⟩ <;>
    simp only [hl, getMetricValues_length m _ (henv _)] <;> rfl

/-! ## Unique visitors -/

theorem callsOf_requests_uv (m : Monitor) (env : Env) (ctx : Context) (seen : Bool) :
    callsOf metricRequestUVTotal (requests m env ctx seen)
      = if seen then []
        else [⟨metricRequestUVTotal, getMetricValues m (env.order metricRequestUVTotal) [],
          Op.Inc⟩] := by
  unfold requests callsOf
  simp only [List.filter_append]
  split_ifs <;> simp [List.filter, metricRequestTotal, metricRequestUVTotal,
    metricURIRequestTotal, metricRequestBody, metricResponseBody, metricRequestDuration,
    metricSlowRequest]

theorem handleAll_cons {F S : Type} (B : BloomOps F) (M : MetricOps S) (m : Monitor)
    (r : Measured) (rs : List Measured) (st : State F S) :
    handleAll B M m (r :: rs) st = handleAll B M m rs (ginMetricHandle B M m r.2 r.1 st) := rfl

theorem handleAll_calls {F S : Type} (B : BloomOps F) (M : MetricOps S) (m : Monitor)
    (reqs : List Measured) (st : State F S) :
    (handleAll B M m reqs st).calls = st.calls ++ issued st (handleAll B M m reqs st) := by
  induction reqs generalizing st with
  | nil => simp [handleAll, issued]
  | cons r rs ih =>
    rw [handleAll_cons]
    have h1 := ih (ginMetricHandle B M m r.2 r.1 st)
    have h2 := handle_calls B M m r.2 r.1 st
    unfold issued
    rw [h1, h2]
    simp [List.append_assoc]

theorem issued_handleAll_cons {F S : Type} (B : BloomOps F) (M : MetricOps S) (m : Monitor)
    (r : Measured) (rs : List Measured) (st : State F S) :
    issued st (handleAll B M m (r :: rs) st)
      = requests m r.2 r.1 (B.Contains st.bloomFilter r.1.clientIP)
        ++ issued (ginMetricHandle B M m r.2 r.1 st)
            (handleAll B M m rs (ginMetricHandle B M m r.2 r.1 st)) := by
  rw [handleAll_cons]
  have h1 := handleAll_calls B M m rs (ginMetricHandle B M m r.2 r.1 st)
  have h2 := handle_calls B M m r.2 r.1 st
  generalize issued (ginMetricHandle B M m r.2 r.1 st)
    (handleAll B M m rs (ginMetricHandle B M m r.2 r.1 st)) = tail at h1 ⊢
  unfold issued
  rw [h1, h2]
  simp [List.append_assoc]

theorem uvIncrements_cons {F S : Type} (B : BloomOps F) (M : MetricOps S) (m : Monitor)
    (r : Measured) (rs : List Measured) (st : State F S) :
    uvIncrements st (handleAll B M m (r :: rs) st)
      = (if B.Contains st.bloomFilter r.1.clientIP then 0 else 1)
        + uvIncrements (ginMetricHandle B M m r.2 r.1 st)
            (handleAll B M m rs (ginMetricHandle B M m r.2 r.1 st)) := by
  unfold uvIncrements
  rw [issued_handleAll_cons, callsOf, List.filter_append, List.length_append]
  congr 1
  have := callsOf_requests_uv m r.2 r.1 (B.Contains st.bloomFilter r.1.clientIP)
  unfold callsOf at this
  rw [this]
  split_ifs <;> rfl

theorem uvIncrements_le_fresh {F S : Type} (B : BloomOps F) (M : MetricOps S) (m : Monitor)
    (hadd : ∀ f x, B.Contains (B.Add f x) x = true)
    (hkeep : ∀ f x y, B.Contains f y = true → B.Contains (B.Add f x) y = true)
    (reqs : List Measured) (st : State F S) :
    uvIncrements st (handleAll B M m reqs st)
      ≤ ((clientIPs reqs).toFinset.filter
          (fun x => B.Contains st.bloomFilter x = false)).card := by
  induction reqs generalizing st with
  | nil => simp [handleAll, uvIncrements, issued, callsOf]
  | cons r rs ih =>
    rw [uvIncrements_cons]
    have hrec := ih (ginMetricHandle B M m r.2 r.1 st)
    rw [handle_bloomFilter] at hrec
    cases hc : B.Contains st.bloomFilter r.1.clientIP
    · -- a new client: the filter gains it
      simp only [hc, Bool.false_eq_true, if_false] at hrec ⊢
      have hsub : (clientIPs rs).toFinset.filter
            (fun x => B.Contains (B.Add st.bloomFilter r.1.clientIP) x = false)
          ⊆ ((clientIPs (r :: rs)).toFinset.filter
              (fun x => B.Contains st.bloomFilter x = false)).erase r.1.clientIP := by
        intro y hy
        simp only [Finset.mem_filter, List.mem_toFinset] at hy
        simp only [Finset.mem_erase, Finset.mem_filter, List.mem_toFinset, clientIPs,
          List.map_cons, List.mem_cons]
        refine ⟨?_, Or.inr hy.1, ?_⟩
        · intro hyx
          have := hadd st.bloomFilter r.1.clientIP
          rw [hyx] at hy
          rw [this] at hy
          exact Bool.noConfusion hy.2
        · cases hy2 : B.Contains st.bloomFilter y
          · rfl
          · have := hkeep st.bloomFilter r.1.clientIP y hy2
            rw [this] at hy
            exact Bool.noConfusion hy.2
      have hmem : r.1.clientIP ∈ (clientIPs (r :: rs)).toFinset.filter
          (fun x => B.Contains st.bloomFilter x = false) := by
        simp [clientIPs, hc]
      have h1 := Finset.card_le_card hsub
      have h2 := Finset.card_erase_of_mem hmem
      have h3 := Finset.card_pos.mpr ⟨_, hmem⟩
      omega
    · -- a known client: no increment, the filter is unchanged
      simp only [hc, if_true] at hrec ⊢
      have hsub : (clientIPs rs).toFinset.filter
            (fun x => B.Contains st.bloomFilter x = false)
          ⊆ (clientIPs (r :: rs)).toFinset.filter
              (fun x => B.Contains st.bloomFilter x = false) := by
        intro y hy
        simp only [Finset.mem_filter, List.mem_toFinset, clientIPs, List.map_cons,
          List.mem_cons] at hy ⊢
        exact ⟨Or.inr hy.1, hy.2⟩
      have h1 := Finset.card_le_card hsub
      omega

theorem uvIncrements_known {F S : Type} (B : BloomOps F) (M : MetricOps S) (m : Monitor)
    (x : String) (reqs : List Measured) (st : State F S)
    (hall : ∀ r ∈ reqs, r.1.clientIP = x) (hc : B.Contains st.bloomFilter x = true) :
    uvIncrements st (handleAll B M m reqs st) = 0 := by
  induction reqs generalizing st with
  | nil => simp [handleAll, uvIncrements, issued, callsOf]
  | cons r rs ih =>
    have hr : r.1.clientIP = x := hall r (List.mem_cons_self _ _)
    rw [uvIncrements_cons, hr, hc]
    have hb : (ginMetricHandle B M m r.2 r.1 st).bloomFilter = st.bloomFilter := by
      rw [handle_bloomFilter, hr, hc]; rfl
    rw [ih _ (fun r1 h1 => hall r1 (List.mem_cons_of_mem _ h1)) (by rw [hb]; exact hc)]
    rfl

theorem bloom_add_contains (f : BloomFilter) (x : String) : (f.Add x).Contains x = true := by
  simp only [BloomFilter.Contains, BloomFilter.Add, List.all_eq_true, Bool.or_eq_true,
    List.any_eq_true, beq_iff_eq]
  intro h hh
  exact Or.inr ⟨h, hh, rfl⟩

theorem bloom_add_keeps (f : BloomFilter) (x y : String) (h : f.Contains y = true) :
    (f.Add x).Contains y = true := by
  simp only [BloomFilter.Contains, BloomFilter.Add, List.all_eq_true, Bool.or_eq_true] at h ⊢
  intro g hg
  exact Or.inl (h g hg)

theorem initGinMetrics_bloomFilter {F S : Type} (B : BloomOps F) (M : MetricOps S)
    (m : Monitor) (order : String → List String) (st : State F S) :
    (initGinMetrics B M m order st).bloomFilter = B.NewBloomFilter := rfl

theorem initGinMetrics_calls {F S : Type} (B : BloomOps F) (M : MetricOps S)
    (m : Monitor) (order : String → List String) (st : State F S) :
    (initGinMetrics B M m order st).calls = st.calls := rfl

/-- C4 (fails on the code): after `Use` and a measured request of client 10.0.0.1 the
filter contains the client; a further `UseWithoutExposingEndpoint` replaces the
filter by a new one that does not contain it, and the next request of the same
client increments the unique-visitor counter a second time. -/
theorem bloomFilter_reset_by_second_use :
    sampleBloom.Contains afterFirstVisit.bloomFilter "10.0.0.1" = true
    ∧ sampleBloom.Contains afterSecondUse.bloomFilter "10.0.0.1" = false
    ∧ uvIncrements sampleState afterFirstVisit = 1
    ∧ uvIncrements afterSecondUse afterSecondVisit = 1
    ∧ uvIncrements sampleState afterSecondVisit = 2 := by
  have h1 : afterFirstVisit.bloomFilter = sampleBloom.Add sampleBloom.NewBloomFilter "10.0.0.1" := by
    unfold afterFirstVisit
    rw [handle_bloomFilter, Use, initGinMetrics_bloomFilter]
    rfl
  have h2 : afterSecondUse.bloomFilter = sampleBloom.NewBloomFilter := rfl
  have c0 : (Use sampleBloom registryOps sampleMonitor sampleEnv.order sampleState).calls = [] :=
    rfl
  have c1 : afterFirstVisit.calls = requests sampleMonitor sampleEnv sampleContext false := by
    unfold afterFirstVisit
    rw [handle_calls, c0]
    rfl
  have c2 : afterSecondUse.calls = afterFirstVisit.calls := rfl
  have c3 : afterSecondVisit.calls
      = afterFirstVisit.calls ++ requests sampleMonitor sampleEnv sampleContext false := by
    unfold afterSecondVisit
    rw [handle_calls, c2, h2]
    rfl
  have hu : (callsOf metricRequestUVTotal
      (requests sampleMonitor sampleEnv sampleContext false)).length = 1 := by
    rw [callsOf_requests_uv]; rfl
  refine ⟨?_, ?_, ?_, ?_, ?_⟩
  · rw [h1]; exact bloom_add_contains _ _
  · rw [h2]; decide
  · unfold uvIncrements issued
    rw [c1]
    exact hu
  · unfold uvIncrements issued
    rw [c3, c2, List.drop_left]
    exact hu
  · unfold uvIncrements issued
    rw [c3, c1]
    simp only [sampleState, List.length_nil, List.drop_zero]
    rw [callsOf, List.filter_append, List.length_append]
    unfold callsOf at hu
    rw [hu]

/-! ## Slow requests -/

theorem callsOf_requests_slow (m : Monitor) (env : Env) (ctx : Context) (seen : Bool) :
    callsOf metricSlowRequest (requests m env ctx seen)
      = if toInt32 env.ovf (Seconds env.latency) > m.slowTime then
          [⟨metricSlowRequest, getMetricValues m (env.order metricSlowRequest)
            [ctx.fullPath, ctx.method, Itoa ctx.status], Op.Inc⟩]
        else [] := by
  unfold requests callsOf
  simp only [List.filter_append]
  split_ifs <;> simp [List.filter, metricRequestTotal, metricRequestUVTotal,
    metricURIRequestTotal, metricRequestBody, metricResponseBody, metricRequestDuration,
    metricSlowRequest]

theorem toInt32_Seconds (ovf : Float64 → Int) (d : Nat) (hd : d < 16777216 * 1000000000) :
    toInt32 ovf (Seconds d) = ((d / 1000000000 : Nat) : Int) := by
  have h := Seconds_trunc d hd
  have hlt : d / 1000000000 < 2 ^ 31 := by
    rw [Nat.div_lt_iff_lt_mul (by norm_num)]
    omega
  unfold toInt32
  rw [h, if_pos hlt]

/-! ## The registry model -/

@[simp] theorem update_metrics {F S : Type} (M : MetricOps S) (name : String)
    (lv : List String) (op : Op) (st : State F S) :
    (st.update M name lv op).metrics = (M.apply name lv op st.metrics).1 := rfl

theorem handle_metrics {F S : Type} (B : BloomOps F) (M : MetricOps S) (m : Monitor) (env : Env)
    (ctx : Context) (st : State F S) :
    (ginMetricHandle B M m env ctx st).metrics
      = (requests m env ctx (B.Contains st.bloomFilter ctx.clientIP)).foldl
          (fun s c => (M.apply c.name c.labelValues c.op s).1) st.metrics := by
  unfold ginMetricHandle requests
  simp only [update_bloomFilter]
  cases B.Contains st.bloomFilter ctx.clientIP <;> simp only [Bool.not_false, Bool.not_true, if_true, Bool.false_eq_true, if_false] <;> split_ifs <;> simp

theorem lookup_map (reg : Registry) (f : Entry → Entry) (hf : ∀ e, (f e).metric = e.metric)
    (name : String) : Registry.lookup (reg.map f) name = (reg.lookup name).map f := by
  unfold Registry.lookup
  rw [List.find?_map]
  congr 1
  congr 1
  funext e
  simp [hf]

theorem lookup_name (reg : Registry) (name : String) (e : Entry)
    (h : reg.lookup name = some e) : e.metric.Name = name := by
  unfold Registry.lookup at h
  have := List.find?_some h
  simpa using this

theorem seriesAt_accumulate (e : Entry) (lv lv1 : List String) (d : ℚ) (b : Option Nat) :
    ((e.accumulate lv1 d b).seriesAt lv).sum
      = (e.seriesAt lv).sum + if lv = lv1 then d else 0 := by
  by_cases h : lv = lv1
  · subst h
    simp [Entry.accumulate, Entry.seriesAt]
  · have h1 : ¬ lv1 = lv := fun h1 => h h1.symm
    have hfind : List.find? (fun s => decide (s.labelValues = lv))
        (List.filter (fun s => decide (s.labelValues ≠ lv1)) e.series)
        = List.find? (fun s => decide (s.labelValues = lv)) e.series := by
      rw [List.find?_filter]
      congr 1
      funext s
      by_cases hs : s.labelValues = lv
      · simp [hs, h]
      · simp [hs]
    simp only [Entry.accumulate, Entry.seriesAt, if_neg h, add_zero]
    rw [List.find?_cons_of_neg _ (by simpa using h1), hfind]

theorem value_updateMetric_other (reg : Registry) (name name1 : String) (lv lv1 : List String)
    (kind : MetricType) (d : ℚ) (bucket : Metric → Option Nat) (hne : name ≠ name1) :
    Registry.value (Registry.updateMetric name1 lv1 kind d bucket reg).1 name lv
      = Registry.value reg name lv := by
  unfold Registry.updateMetric
  split
  · rfl
  · split_ifs
    · rfl
    · rfl
    · simp only [Registry.value]
      rw [lookup_map _ _ (by intro e; split_ifs <;> rfl)]
      cases hl : reg.lookup name with
      | none => rfl
      | some e =>
        have hn := lookup_name reg name e hl
        simp only [Option.map_some']
        rw [if_neg (by rw [hn]; exact hne)]

theorem value_updateMetric_zero (reg : Registry) (name : String) (lv lv1 : List String)
    (kind : MetricType) (bucket : Metric → Option Nat) :
    Registry.value (Registry.updateMetric name lv1 kind 0 bucket reg).1 name lv
      = Registry.value reg name lv := by
  unfold Registry.updateMetric
  split
  · rfl
  · split_ifs
    · rfl
    · rfl
    · simp only [Registry.value]
      rw [lookup_map _ _ (by intro e; split_ifs <;> rfl)]
      cases hl : reg.lookup name with
      | none => rfl
      | some e =>
        have hn := lookup_name reg name e hl
        simp only [Option.map_some']
        rw [if_pos hn, seriesAt_accumulate]
        simp

theorem value_apply_other (reg : Registry) (name : String) (lv : List String) (c : Call)
    (hne : name ≠ c.name) :
    Registry.value (registryOps.apply c.name c.labelValues c.op reg).1 name lv
      = Registry.value reg name lv := by
  cases hop : c.op <;>
    simp only [MetricOps.apply, registryOps] <;>
    exact value_updateMetric_other reg name c.name lv c.labelValues _ _ _ hne

theorem value_apply_add_zero (reg : Registry) (name : String) (lv lv1 : List String)
    (v : Float64) (hv : v.toRat = 0) :
    Registry.value (registryOps.apply name lv1 (Op.Add v) reg).1 name lv
      = Registry.value reg name lv := by
  simp only [MetricOps.apply, registryOps, hv]
  exact value_updateMetric_zero reg name lv lv1 _ _

theorem value_foldl (cs : List Call) (reg : Registry) (name : String) (lv : List String)
    (h : ∀ c ∈ cs, c.name ≠ name ∨ ∃ v, c.op = Op.Add v ∧ v.toRat = 0) :
    Registry.value
        (cs.foldl (fun s c => (registryOps.apply c.name c.labelValues c.op s).1) reg) name lv
      = Registry.value reg name lv := by
  induction cs generalizing reg with
  | nil => rfl
  | cons c cs ih =>
    rw [List.foldl_cons, ih _ (fun c1 h1 => h c1 (List.mem_cons_of_mem _ h1))]
    rcases h c (List.mem_cons_self _ _) with hne | ⟨v, hop, hv⟩
    · exact value_apply_other reg name lv c (fun h1 => hne h1.symm)
    · by_cases hn : c.name = name
      · rw [hop, hn]
        exact value_apply_add_zero reg name lv c.labelValues v hv
      · exact value_apply_other reg name lv c (fun h1 => hn h1.symm)

theorem f64OfNat_toRat (n : Nat) (hn : n < 2 ^ 53) : (f64OfNat n).toRat = n := by
  unfold Float64.toRat
  rw [f64OfNat_exact n hn]
  push_cast
  field_simp

theorem f64OfNat_zero_toRat : (f64OfNat 0).toRat = 0 := by
  rw [f64OfNat_zero]; simp [Float64.toRat]

theorem callsOf_requests_body (m : Monitor) (env : Env) (ctx : Context) (seen : Bool) :
    callsOf metricRequestBody (requests m env ctx seen)
      = if ctx.contentLength ≥ 0 then
          [⟨metricRequestBody, getMetricValues m (env.order metricRequestBody) [],
            Op.Add (f64OfNat ctx.contentLength.toNat)⟩]
        else [] := by
  unfold requests callsOf
  simp only [List.filter_append]
  split_ifs <;> simp [List.filter, metricRequestTotal, metricRequestUVTotal,
    metricURIRequestTotal, metricRequestBody, metricResponseBody, metricRequestDuration,
    metricSlowRequest]

theorem callsOf_requests_response (m : Monitor) (env : Env) (ctx : Context) (seen : Bool) :
    callsOf metricResponseBody (requests m env ctx seen)
      = if ctx.size > 0 then
          [⟨metricResponseBody, getMetricValues m (env.order metricResponseBody) [],
            Op.Add (f64OfNat ctx.size.toNat)⟩]
        else [] := by
  unfold requests callsOf
  simp only [List.filter_append]
  split_ifs <;> simp [List.filter, metricRequestTotal, metricRequestUVTotal,
    metricURIRequestTotal, metricRequestBody, metricResponseBody, metricRequestDuration,
    metricSlowRequest]

/-- The sample monitor registered with the key order `env, region` and updated with the
key order `region, env`: every update has the registered number of label values. -/
theorem handle_label_arity_witness :
    (∀ n, sampleMonitor.RangeOrder (sampleEnv.order n))
    ∧ (∀ n, sampleMonitor.RangeOrder (swappedEnv.order n))
    ∧ ∀ c ∈ issued sampleState
        (ginMetricHandle sampleBloom registryOps sampleMonitor swappedEnv sampleContext
          sampleState),
      c.name ∈ catalog
      ∧ c.labelValues.length
          = (getMetricLabelsIncludingMetadata sampleMonitor (sampleEnv.order c.name)
              c.name).length :=
  have h1 : sampleMonitor.RangeOrder ["env", "region"] := by decide
  have h2 : sampleMonitor.RangeOrder ["region", "env"] := by decide
  ⟨fun _ => h1, fun _ => h2,
    handle_label_arity sampleBloom registryOps sampleMonitor swappedEnv sampleContext
      sampleState sampleEnv.order (fun _ => h1) (fun _ => h2)⟩

/-! ## The int32 conversion of long durations -/

theorem wrapInt32_lt (z : Int) : wrapInt32 z < 2 ^ 31 := by
  unfold wrapInt32
  have := Int.emod_lt_of_pos (z + 2 ^ 31) (show (0 : Int) < 2 ^ 32 by norm_num)
  omega

set_option maxRecDepth 100000 in
/-- Beyond the int32 range the comparison is lost on every implementation: with the
threshold 2147483647 and 2^31 seconds elapsed (exactly representable, no rounding)
the slow-request counter is not incremented, whatever int32 the conversion yields,
although the floor of the elapsed seconds exceeds the threshold. -/
theorem slow_request_int32_overflow {F S : Type} (B : BloomOps F) (M : MetricOps S)
    (ovf : Float64 → Int) (ctx : Context) (st : State F S) :
    callsOf metricSlowRequest
        (issued st (ginMetricHandle B M maxMonitor (overflowEnv ovf) ctx st)) = []
    ∧ (((overflowEnv ovf).latency / 1000000000 : Nat) : Int) > maxMonitor.slowTime := by
  have hl : (overflowEnv ovf).latency = 2147483648000000000 := rfl
  have ho : (overflowEnv ovf).ovf = ovf := rfl
  have hs : maxMonitor.slowTime = 2147483647 := rfl
  have ht : (Seconds 2147483648000000000).trunc = 2147483648 := by decide
  rw [hl, hs]
  refine ⟨?_, by decide⟩
  rw [handle_issued, callsOf_requests_slow, if_neg]
  have hw := wrapInt32_lt (ovf (Seconds 2147483648000000000))
  unfold toInt32
  rw [hl, ho, hs, ht, if_neg (by decide)]
  omega

/-! ## Values of the registry model after updates -/

theorem apply_eq_updateMetric (reg : Registry) (c : Call) :
    registryOps.apply c.name c.labelValues c.op reg
      = Registry.updateMetric c.name c.labelValues c.op.kind c.op.amount c.op.bucket reg := by
  cases hop : c.op <;> rfl

theorem updateMetric_fst (reg : Registry) (name : String) (lv : List String)
    (kind : MetricType) (d : ℚ) (bucket : Metric → Option Nat) :
    (Registry.updateMetric name lv kind d bucket reg).1
      = if reg.admits name lv.length kind then
          reg.map (fun e1 =>
            if e1.metric.Name = name then e1.accumulate lv d (bucket e1.metric) else e1)
        else reg := by
  unfold Registry.updateMetric Registry.admits
  cases hl : reg.lookup name with
  | none => simp
  | some e =>
    by_cases hk : e.metric.Kind = kind
    · by_cases ha : lv.length = e.metric.Labels.length
      · simp [hk, ha]
      · simp [hk, ha]
    · simp [hk]

theorem lookup_updateMetric (reg : Registry) (name name1 : String) (lv : List String)
    (kind : MetricType) (d : ℚ) (bucket : Metric → Option Nat) :
    ((Registry.updateMetric name1 lv kind d bucket reg).1.lookup name).map Entry.metric
      = (reg.lookup name).map Entry.metric := by
  rw [updateMetric_fst]
  split_ifs
  · rw [lookup_map _ _ (by intro e; split_ifs <;> rfl)]
    cases reg.lookup name with
    | none => rfl
    | some e =>
      simp only [Option.map_some']
      split_ifs <;> rfl
  · rfl

theorem admits_updateMetric (reg : Registry) (name name1 : String) (n : Nat)
    (lv1 : List String) (kind kind1 : MetricType) (d : ℚ) (bucket : Metric → Option Nat) :
    (Registry.updateMetric name1 lv1 kind1 d bucket reg).1.admits name n kind
      = reg.admits name n kind := by
  have h := lookup_updateMetric reg name name1 lv1 kind1 d bucket
  unfold Registry.admits
  cases h1 : (Registry.updateMetric name1 lv1 kind1 d bucket reg).1.lookup name with
  | none =>
    cases h2 : reg.lookup name with
    | none => rfl
    | some e2 => rw [h1, h2] at h; simp at h
  | some e1 =>
    cases h2 : reg.lookup name with
    | none => rw [h1, h2] at h; simp at h
    | some e2 =>
      rw [h1, h2] at h
      simp only [Option.map_some', Option.some.injEq] at h
      simp only [h]

theorem accepts_apply (reg : Registry) (c c1 : Call) :
    (registryOps.apply c1.name c1.labelValues c1.op reg).1.accepts c = reg.accepts c := by
  rw [apply_eq_updateMetric]
  exact admits_updateMetric reg c.name c1.name c.labelValues.length c1.labelValues _ _ _ _

theorem value_updateMetric_same (reg : Registry) (name : String) (lv lv1 : List String)
    (kind : MetricType) (d : ℚ) (bucket : Metric → Option Nat) :
    Registry.value (Registry.updateMetric name lv1 kind d bucket reg).1 name lv
      = Registry.value reg name lv
        + if lv1 = lv ∧ reg.admits name lv1.length kind = true then d else 0 := by
  rw [updateMetric_fst]
  by_cases hadm : reg.admits name lv1.length kind = true
  · rw [if_pos hadm]
    simp only [Registry.value]
    rw [lookup_map _ _ (by intro e; split_ifs <;> rfl)]
    cases hl : reg.lookup name with
    | none =>
      unfold Registry.admits at hadm
      rw [hl] at hadm
      exact absurd hadm (by simp)
    | some e =>
      have hn := lookup_name reg name e hl
      simp only [Option.map_some']
      rw [if_pos hn, seriesAt_accumulate]
      by_cases hlv : lv1 = lv
      · subst hlv; simp [hadm]
      · have : ¬ lv = lv1 := fun h => hlv h.symm
        simp [hlv, this]
  · rw [if_neg hadm]
    simp [hadm]

theorem value_apply (reg : Registry) (name : String) (lv : List String) (c : Call) :
    Registry.value (registryOps.apply c.name c.labelValues c.op reg).1 name lv
      = Registry.value reg name lv
        + if c.name = name ∧ c.labelValues = lv ∧ reg.accepts c = true then c.op.amount
          else 0 := by
  by_cases hn : c.name = name
  · rw [apply_eq_updateMetric, hn, value_updateMetric_same]
    unfold Registry.accepts
    rw [hn]
    by_cases h1 : c.labelValues = lv
    · by_cases h2 : reg.admits name c.labelValues.length c.op.kind = true
      · simp [h1, h2]
      · simp [h1, h2]
    · simp [h1]
  · rw [value_apply_other reg name lv c (fun h => hn h.symm)]
    simp [hn]

theorem value_replay (cs : List Call) (reg : Registry) (name : String) (lv : List String) :
    Registry.value (registryOps.replay cs reg) name lv
      = Registry.value reg name lv
        + (((callsOf name cs).filter
            (fun c => decide (c.labelValues = lv) && reg.accepts c)).map
              (fun c => c.op.amount)).sum := by
  induction cs generalizing reg with
  | nil => simp [MetricOps.replay, callsOf]
  | cons c cs ih =>
    have hstep : registryOps.replay (c :: cs) reg
        = registryOps.replay cs (registryOps.apply c.name c.labelValues c.op reg).1 := rfl
    have hacc : (fun c1 : Call => decide (c1.labelValues = lv)
          && (registryOps.apply c.name c.labelValues c.op reg).1.accepts c1)
        = (fun c1 : Call => decide (c1.labelValues = lv) && reg.accepts c1) := by
      funext c1
      rw [accepts_apply]
    rw [hstep, ih, hacc, value_apply]
    by_cases hn : c.name = name
    · by_cases h1 : c.labelValues = lv
      · by_cases h2 : reg.accepts c = true
        · simp [callsOf, List.filter_cons, hn, h1, h2, add_assoc]
        · simp [callsOf, List.filter_cons, hn, h1, h2]
      · simp [callsOf, List.filter_cons, hn, h1]
    · simp [callsOf, List.filter_cons, hn]

theorem handle_replay {F S : Type} (B : BloomOps F) (M : MetricOps S) (m : Monitor) (env : Env)
    (ctx : Context) (st : State F S) :
    (ginMetricHandle B M m env ctx st).metrics
      = M.replay (issued st (ginMetricHandle B M m env ctx st)) st.metrics := by
  rw [handle_issued, handle_metrics]
  rfl

/-! ## Totals of the registry model -/

theorem sum_series_split (l : List Series) (lv : List String)
    (hnd : (l.map Series.labelValues).Nodup) (dflt : Series) (hd : dflt.sum = 0) :
    (l.map Series.sum).sum
      = ((l.find? (fun s => decide (s.labelValues = lv))).getD dflt).sum
        + ((l.filter (fun s => decide (s.labelValues ≠ lv))).map Series.sum).sum := by
  induction l with
  | nil => simp [hd]
  | cons s l ih =>
    rw [List.map_cons, List.nodup_cons] at hnd
    by_cases hs : s.labelValues = lv
    · have hfil : l.filter (fun s => decide (s.labelValues ≠ lv)) = l := by
        apply List.filter_eq_self.mpr
        intro a ha
        have : a.labelValues ≠ lv := by
          intro h
          apply hnd.1
          rw [hs, ← h]
          exact List.mem_map_of_mem _ ha
        simp [this]
      have hfil2 : l.filter (fun s => !decide (s.labelValues = lv)) = l := by
        rw [← hfil]
        congr 1
        funext a
        simp
      simp [List.find?_cons, List.filter_cons, hs, hfil2]
    · have := ih hnd.2
      simp [List.find?_cons, List.filter_cons, hs, this]
      ring

theorem total_accumulate (e : Entry) (lv : List String) (d : ℚ) (b : Option Nat)
    (hnd : (e.series.map Series.labelValues).Nodup) :
    ((e.accumulate lv d b).series.map Series.sum).sum = (e.series.map Series.sum).sum + d := by
  have h := sum_series_split e.series lv hnd
    ⟨lv, 0, List.replicate e.metric.Buckets.length 0⟩ rfl
  simp only [Entry.accumulate, Entry.seriesAt, List.map_cons, List.sum_cons]
  rw [h]
  ring

theorem nodup_accumulate (e : Entry) (lv : List String) (d : ℚ) (b : Option Nat)
    (hnd : (e.series.map Series.labelValues).Nodup) :
    ((e.accumulate lv d b).series.map Series.labelValues).Nodup := by
  simp only [Entry.accumulate, List.map_cons, List.nodup_cons]
  constructor
  · intro hmem
    rcases List.mem_map.mp hmem with ⟨s, hs, hlv⟩
    have := (List.mem_filter.mp hs).2
    simp at this
    exact this hlv
  · exact hnd.sublist ((List.filter_sublist _).map _)

theorem wellFormed_updateMetric (reg : Registry) (name : String) (lv : List String)
    (kind : MetricType) (d : ℚ) (bucket : Metric → Option Nat) (hwf : reg.WellFormed) :
    (Registry.updateMetric name lv kind d bucket reg).1.WellFormed := by
  rw [updateMetric_fst]
  split_ifs
  · intro e he
    rcases List.mem_map.mp he with ⟨e0, he0, rfl⟩
    split_ifs
    · exact nodup_accumulate e0 lv d _ (hwf e0 he0)
    · exact hwf e0 he0
  · exact hwf

theorem total_updateMetric (reg : Registry) (name name1 : String) (lv1 : List String)
    (kind : MetricType) (d : ℚ) (bucket : Metric → Option Nat) (hwf : reg.WellFormed) :
    Registry.total (Registry.updateMetric name1 lv1 kind d bucket reg).1 name
      = Registry.total reg name
        + if name1 = name ∧ reg.admits name1 lv1.length kind = true then d else 0 := by
  rw [updateMetric_fst]
  by_cases hadm : reg.admits name1 lv1.length kind = true
  · rw [if_pos hadm]
    simp only [Registry.total]
    rw [lookup_map _ _ (by intro e; split_ifs <;> rfl)]
    cases hl : reg.lookup name with
    | none =>
      have hne : ¬ name1 = name := by
        intro h
        unfold Registry.admits at hadm
        rw [h, hl] at hadm
        exact absurd hadm (by simp)
      simp [hne]
    | some e =>
      have hn := lookup_name reg name e hl
      have hmem : e ∈ reg := List.mem_of_find?_eq_some hl
      simp only [Option.map_some']
      by_cases hnn : name1 = name
      · rw [if_pos (by rw [hn, hnn]), total_accumulate e lv1 d _ (hwf e hmem)]
        rw [hnn] at hadm
        simp [hnn, hadm]
      · rw [if_neg (by rw [hn]; exact fun h => hnn h.symm)]
        simp [hnn]
  · rw [if_neg hadm]
    simp [hadm]

theorem total_apply (reg : Registry) (name : String) (c : Call) (hwf : reg.WellFormed) :
    Registry.total (registryOps.apply c.name c.labelValues c.op reg).1 name
      = Registry.total reg name
        + if c.name = name ∧ reg.accepts c = true then c.op.amount else 0 := by
  rw [apply_eq_updateMetric, total_updateMetric _ _ _ _ _ _ _ hwf]
  rfl

theorem wellFormed_apply (reg : Registry) (c : Call) (hwf : reg.WellFormed) :
    (registryOps.apply c.name c.labelValues c.op reg).1.WellFormed := by
  rw [apply_eq_updateMetric]
  exact wellFormed_updateMetric _ _ _ _ _ _ hwf

theorem total_replay (cs : List Call) (reg : Registry) (name : String)
    (hwf : reg.WellFormed) :
    Registry.total (registryOps.replay cs reg) name
      = Registry.total reg name
        + (((callsOf name cs).filter (fun c => reg.accepts c)).map
            (fun c => c.op.amount)).sum := by
  induction cs generalizing reg with
  | nil => simp [MetricOps.replay, callsOf]
  | cons c cs ih =>
    have hstep : registryOps.replay (c :: cs) reg
        = registryOps.replay cs (registryOps.apply c.name c.labelValues c.op reg).1 := rfl
    have hacc : (fun c1 : Call =>
          (registryOps.apply c.name c.labelValues c.op reg).1.accepts c1)
        = (fun c1 : Call => reg.accepts c1) := by
      funext c1
      rw [accepts_apply]
    rw [hstep, ih _ (wellFormed_apply reg c hwf), hacc, total_apply reg name c hwf]
    by_cases hn : c.name = name
    · by_cases h2 : reg.accepts c = true
      · simp [callsOf, List.filter_cons, hn, h2, add_assoc]
      · simp [callsOf, List.filter_cons, hn, h2]
    · simp [callsOf, List.filter_cons, hn]

theorem handleAll_replay {F S : Type} (B : BloomOps F) (M : MetricOps S) (m : Monitor)
    (reqs : List Measured) (st : State F S) :
    (handleAll B M m reqs st).metrics
      = M.replay (issued st (handleAll B M m reqs st)) st.metrics := by
  induction reqs generalizing st with
  | nil => simp [handleAll, issued, MetricOps.replay]
  | cons r rs ih =>
    rw [issued_handleAll_cons, handleAll_cons, ih, handle_metrics]
    simp [MetricOps.replay, List.foldl_append]

theorem uv_calls_shape {F S : Type} (B : BloomOps F) (M : MetricOps S) (m : Monitor)
    (reqs : List Measured) (st : State F S)
    (hord : ∀ r ∈ reqs, m.RangeOrder (r.2.order metricRequestUVTotal)) :
    ∀ c ∈ callsOf metricRequestUVTotal (issued st (handleAll B M m reqs st)),
      c.name = metricRequestUVTotal ∧ c.op = Op.Inc
        ∧ c.labelValues.length = m.metadata.length := by
  induction reqs generalizing st with
  | nil => simp [handleAll, issued, callsOf]
  | cons r rs ih =>
    intro c hc
    rw [issued_handleAll_cons, callsOf, List.filter_append, List.mem_append] at hc
    rcases hc with hc | hc
    · have := callsOf_requests_uv m r.2 r.1 (B.Contains st.bloomFilter r.1.clientIP)
      unfold callsOf at this
      rw [this] at hc
      split_ifs at hc
      · simp at hc
      · simp only [List.mem_singleton] at hc
        subst hc
        refine ⟨rfl, rfl, ?_⟩
        rw [getMetricValues_length m _ (hord r (List.mem_cons_self _ _))]
        simp
    · exact ih _ (fun r1 h1 => hord r1 (List.mem_cons_of_mem _ h1)) c hc

theorem total_handleAll_uv {F : Type} (B : BloomOps F) (m : Monitor)
    (reqs : List Measured) (sr : State F Registry) (hwf : sr.metrics.WellFormed)
    (hreg : sr.metrics.admits metricRequestUVTotal m.metadata.length MetricType.Counter = true)
    (hord : ∀ r ∈ reqs, m.RangeOrder (r.2.order metricRequestUVTotal)) :
    Registry.total (handleAll B registryOps m reqs sr).metrics metricRequestUVTotal
      = Registry.total sr.metrics metricRequestUVTotal
        + (uvIncrements sr (handleAll B registryOps m reqs sr) : ℚ) := by
  rw [handleAll_replay, total_replay _ _ _ hwf]
  congr 1
  have hshape := uv_calls_shape B registryOps m reqs sr hord
  unfold uvIncrements
  generalize callsOf metricRequestUVTotal
    (issued sr (handleAll B registryOps m reqs sr)) = l at hshape ⊢
  induction l with
  | nil => simp
  | cons c l ih =>
    have hc := hshape c (List.mem_cons_self _ _)
    have hacc : sr.metrics.accepts c = true := by
      unfold Registry.accepts
      rw [hc.1, hc.2.1, hc.2.2]
      exact hreg
    have hamt : c.op.amount = 1 := by rw [hc.2.1]; rfl
    rw [List.filter_cons, if_pos hacc, List.map_cons, List.sum_cons,
      ih (fun c1 h1 => hshape c1 (List.mem_cons_of_mem _ h1)), hamt, List.length_cons]
    push_cast
    ring

/-! ## The registry after `ginMetricHandle` -/

theorem value_handle {F : Type} (B : BloomOps F) (m : Monitor) (env : Env) (ctx : Context)
    (sr : State F Registry) (name : String) (lv : List String) :
    Registry.value (ginMetricHandle B registryOps m env ctx sr).metrics name lv
      = Registry.value sr.metrics name lv
        + (((callsOf name (requests m env ctx (B.Contains sr.bloomFilter ctx.clientIP))).filter
            (fun c => decide (c.labelValues = lv) && sr.metrics.accepts c)).map
              (fun c => c.op.amount)).sum := by
  rw [handle_replay, handle_issued, value_replay]

theorem value_handle_slow {F : Type} (B : BloomOps F) (m : Monitor) (env : Env)
    (ctx : Context) (sr : State F Registry)
    (hacc : sr.metrics.accepts ⟨metricSlowRequest,
      getMetricValues m (env.order metricSlowRequest)
        [ctx.fullPath, ctx.method, Itoa ctx.status], Op.Inc⟩ = true)
    (lv : List String) :
    Registry.value (ginMetricHandle B registryOps m env ctx sr).metrics metricSlowRequest lv
      = Registry.value sr.metrics metricSlowRequest lv
        + if toInt32 env.ovf (Seconds env.latency) > m.slowTime
            ∧ lv = getMetricValues m (env.order metricSlowRequest)
              [ctx.fullPath, ctx.method, Itoa ctx.status] then 1
          else 0 := by
  rw [value_handle, callsOf_requests_slow]
  congr 1
  by_cases hc : toInt32 env.ovf (Seconds env.latency) > m.slowTime
  · by_cases hl : lv = getMetricValues m (env.order metricSlowRequest)
        [ctx.fullPath, ctx.method, Itoa ctx.status]
    · subst hl
      simp [hc, hacc, Op.amount]
    · have hl2 : ¬ getMetricValues m (env.order metricSlowRequest)
          [ctx.fullPath, ctx.method, Itoa ctx.status] = lv := fun h => hl h.symm
      simp [hc, hl, hl2]
  · simp [hc]

theorem value_handle_body {F : Type} (B : BloomOps F) (m : Monitor) (env : Env)
    (ctx : Context) (sr : State F Registry)
    (hacc : sr.metrics.accepts ⟨metricRequestBody,
      getMetricValues m (env.order metricRequestBody) [],
      Op.Add (f64OfNat ctx.contentLength.toNat)⟩ = true)
    (lv : List String) :
    Registry.value (ginMetricHandle B registryOps m env ctx sr).metrics metricRequestBody lv
      = Registry.value sr.metrics metricRequestBody lv
        + if ctx.contentLength ≥ 0 ∧ lv = getMetricValues m (env.order metricRequestBody) []
          then (f64OfNat ctx.contentLength.toNat).toRat
          else 0 := by
  rw [value_handle, callsOf_requests_body]
  congr 1
  by_cases hc : ctx.contentLength ≥ 0
  · by_cases hl : lv = getMetricValues m (env.order metricRequestBody) []
    · subst hl
      simp [hc, hacc, Op.amount]
    · have hl2 : ¬ getMetricValues m (env.order metricRequestBody) [] = lv :=
        fun h => hl h.symm
      simp [hc, hl, hl2]
  · simp [hc]

theorem value_handle_response {F : Type} (B : BloomOps F) (m : Monitor) (env : Env)
    (ctx : Context) (sr : State F Registry)
    (hacc : sr.metrics.accepts ⟨metricResponseBody,
      getMetricValues m (env.order metricResponseBody) [],
      Op.Add (f64OfNat ctx.size.toNat)⟩ = true)
    (lv : List String) :
    Registry.value (ginMetricHandle B registryOps m env ctx sr).metrics metricResponseBody lv
      = Registry.value sr.metrics metricResponseBody lv
        + if ctx.size > 0 ∧ lv = getMetricValues m (env.order metricResponseBody) []
          then (f64OfNat ctx.size.toNat).toRat
          else 0 := by
  rw [value_handle, callsOf_requests_response]
  congr 1
  by_cases hc : ctx.size > 0
  · by_cases hl : lv = getMetricValues m (env.order metricResponseBody) []
    · subst hl
      simp [hc, hacc, Op.amount]
    · have hl2 : ¬ getMetricValues m (env.order metricResponseBody) [] = lv :=
        fun h => hl h.symm
      simp [hc, hl, hl2]
  · simp [hc]

/-! ## Claims on the counters -/

/-- C2 (as amended): for every measured request whose elapsed time is a whole number
of nanoseconds below 2^24 = 16777216 seconds and every threshold `slowTime`,
`ginMetricHandle` increments the slow-request counter if and only if the floor of
the elapsed seconds exceeds `slowTime`: the registry it leaves is the one obtained
by applying the updates it issued, the slow-request update is issued exactly then,
and in the registry model the counter grows by one at the label values of the
request exactly then and keeps every other value. -/
theorem slow_request_iff_floor {F S : Type} (B : BloomOps F) (M : MetricOps S) (m : Monitor)
    (env : Env) (ctx : Context) (st : State F S)
    (h : env.latency < 16777216 * 1000000000) :
    (ginMetricHandle B M m env ctx st).metrics
      = M.replay (issued st (ginMetricHandle B M m env ctx st)) st.metrics
    ∧ callsOf metricSlowRequest (issued st (ginMetricHandle B M m env ctx st))
      = (if ((env.latency / 1000000000 : Nat) : Int) > m.slowTime then
          [⟨metricSlowRequest, getMetricValues m (env.order metricSlowRequest)
            [ctx.fullPath, ctx.method, Itoa ctx.status], Op.Inc⟩]
        else [])
    ∧ ∀ sr : State F Registry,
        sr.metrics.accepts ⟨metricSlowRequest, getMetricValues m (env.order metricSlowRequest)
          [ctx.fullPath, ctx.method, Itoa ctx.status], Op.Inc⟩ = true →
        ∀ lv, Registry.value (ginMetricHandle B registryOps m env ctx sr).metrics
            metricSlowRequest lv
          = Registry.value sr.metrics metricSlowRequest lv
            + if ((env.latency / 1000000000 : Nat) : Int) > m.slowTime
                ∧ lv = getMetricValues m (env.order metricSlowRequest)
                  [ctx.fullPath, ctx.method, Itoa ctx.status] then 1
              else 0 := by
  refine ⟨handle_replay B M m env ctx st, ?_, ?_⟩
  · rw [handle_issued, callsOf_requests_slow, toInt32_Seconds env.ovf env.latency h]
  · intro sr hacc lv
    rw [value_handle_slow B m env ctx sr hacc lv, toInt32_Seconds env.ovf env.latency h]

set_option maxRecDepth 100000 in
/-- With the threshold 10 of the sample monitor and its seven metrics registered, 10.9
seconds elapsed leave the slow-request counter as it is and 11.0 seconds add one to
it. -/
theorem slow_request_iff_floor_witness :
    (env10900ms.latency < 16777216 * 1000000000
      ∧ registeredState.metrics.accepts sampleSlowCall = true
      ∧ callsOf metricSlowRequest (issued registeredState
          (ginMetricHandle sampleBloom registryOps sampleMonitor env10900ms sampleContext
            registeredState)) = []
      ∧ Registry.value (ginMetricHandle sampleBloom registryOps sampleMonitor env10900ms
            sampleContext registeredState).metrics metricSlowRequest sampleSlowCall.labelValues
          = Registry.value registeredState.metrics metricSlowRequest sampleSlowCall.labelValues
            + 0)
    ∧ (env11000ms.latency < 16777216 * 1000000000
      ∧ callsOf metricSlowRequest (issued registeredState
          (ginMetricHandle sampleBloom registryOps sampleMonitor env11000ms sampleContext
            registeredState)) = [sampleSlowCall]
      ∧ Registry.value (ginMetricHandle sampleBloom registryOps sampleMonitor env11000ms
            sampleContext registeredState).metrics metricSlowRequest sampleSlowCall.labelValues
          = Registry.value registeredState.metrics metricSlowRequest sampleSlowCall.labelValues
            + 1) := by
  have hacc : registeredState.metrics.accepts sampleSlowCall = true := by decide
  have t1 := slow_request_iff_floor sampleBloom registryOps sampleMonitor env10900ms
    sampleContext registeredState (by decide)
  have t2 := slow_request_iff_floor sampleBloom registryOps sampleMonitor env11000ms
    sampleContext registeredState (by decide)
  refine ⟨⟨by decide, hacc, t1.2.1.trans (if_neg (by decide)), ?_⟩,
    ⟨by decide, t2.2.1.trans (if_pos (by decide)), ?_⟩⟩
  · refine (t1.2.2 registeredState hacc sampleSlowCall.labelValues).trans ?_
    rw [if_neg (fun hc => absurd hc.1 (by decide))]
  · refine (t2.2.2 registeredState hacc sampleSlowCall.labelValues).trans ?_
    rw [if_pos ⟨by decide, rfl⟩]

set_option maxRecDepth 100000 in
/-- C2 (as stated, fails): with a threshold of 16777216 seconds and an elapsed time
of 16777216.999999999 seconds the float64 sum of `Seconds` rounds up to 16777217.0,
so the slow-request update is issued and the counter of the registry model grows
by one, although the floor of the elapsed seconds, 16777216, does not exceed the
threshold. -/
theorem slow_request_rounding_counterexample :
    (Seconds longEnv.latency).trunc = 16777217
    ∧ callsOf metricSlowRequest (issued registeredState
        (ginMetricHandle sampleBloom registryOps longMonitor longEnv sampleContext
          registeredState)) = [sampleSlowCall]
    ∧ Registry.value (ginMetricHandle sampleBloom registryOps longMonitor longEnv
          sampleContext registeredState).metrics metricSlowRequest sampleSlowCall.labelValues
        = Registry.value registeredState.metrics metricSlowRequest sampleSlowCall.labelValues
          + 1
    ∧ ¬ (((longEnv.latency / 1000000000 : Nat) : Int) > longMonitor.slowTime) := by
  have hacc : registeredState.metrics.accepts sampleSlowCall = true := by decide
  have hc : toInt32 longEnv.ovf (Seconds longEnv.latency) > longMonitor.slowTime := by decide
  refine ⟨by decide, ?_, ?_, by decide⟩
  · rw [handle_issued, callsOf_requests_slow, if_pos hc]
    rfl
  · refine (value_handle_slow sampleBloom longMonitor longEnv sampleContext registeredState
      hacc sampleSlowCall.labelValues).trans ?_
    rw [if_pos ⟨hc, rfl⟩]

/-- C3: for requests measured one after another, with a filter in which `Add(x)`
makes `Contains(x)` true from then on. A request issues the unique-visitor increment
exactly when the filter does not yet contain its client identifier; the registry
left by a sequence is the one obtained by applying the issued updates in order; over
any sequence the number of increments is at most the number of distinct client
identifiers; one or more requests of a single client that the filter does not
contain at the start issue exactly one. In the registry model, with the counter
registered, its total grows by the number of increments, hence by exactly one for
such requests of a single client. -/
theorem unique_visitor_counted_once {F S : Type} (B : BloomOps F) (M : MetricOps S)
    (m : Monitor)
    (hadd : ∀ f x, B.Contains (B.Add f x) x = true)
    (hkeep : ∀ f x y, B.Contains f y = true → B.Contains (B.Add f x) y = true) :
    (∀ (env : Env) (ctx : Context) (st : State F S),
      callsOf metricRequestUVTotal (issued st (ginMetricHandle B M m env ctx st))
        = if B.Contains st.bloomFilter ctx.clientIP then []
          else [⟨metricRequestUVTotal, getMetricValues m (env.order metricRequestUVTotal) [],
            Op.Inc⟩])
    ∧ (∀ (reqs : List Measured) (st : State F S),
      (handleAll B M m reqs st).metrics
        = M.replay (issued st (handleAll B M m reqs st)) st.metrics)
    ∧ (∀ (reqs : List Measured) (st : State F S),
      uvIncrements st (handleAll B M m reqs st) ≤ (clientIPs reqs).dedup.length)
    ∧ (∀ (reqs : List Measured) (st : State F S) (x : String), reqs ≠ [] →
      (∀ r ∈ reqs, r.1.clientIP = x) → B.Contains st.bloomFilter x = false →
      uvIncrements st (handleAll B M m reqs st) = 1)
    ∧ (∀ (reqs : List Measured) (sr : State F Registry), sr.metrics.WellFormed →
      sr.metrics.admits metricRequestUVTotal m.metadata.length MetricType.Counter = true →
      (∀ r ∈ reqs, m.RangeOrder (r.2.order metricRequestUVTotal)) →
      Registry.total (handleAll B registryOps m reqs sr).metrics metricRequestUVTotal
        = Registry.total sr.metrics metricRequestUVTotal
          + (uvIncrements sr (handleAll B registryOps m reqs sr) : ℚ))
    ∧ (∀ (reqs : List Measured) (sr : State F Registry) (x : String), reqs ≠ [] →
      (∀ r ∈ reqs, r.1.clientIP = x) → B.Contains sr.bloomFilter x = false →
      sr.metrics.WellFormed →
      sr.metrics.admits metricRequestUVTotal m.metadata.length MetricType.Counter = true →
      (∀ r ∈ reqs, m.RangeOrder (r.2.order metricRequestUVTotal)) →
      Registry.total (handleAll B registryOps m reqs sr).metrics metricRequestUVTotal
        = Registry.total sr.metrics metricRequestUVTotal + 1) := by
  have hone : ∀ {S1 : Type} (M1 : MetricOps S1) (reqs : List Measured) (st : State F S1)
      (x : String), reqs ≠ [] → (∀ r ∈ reqs, r.1.clientIP = x) →
      B.Contains st.bloomFilter x = false →
      uvIncrements st (handleAll B M1 m reqs st) = 1 := by
    intro S1 M1 reqs st x hne hall hc
    cases reqs with
    | nil => exact absurd rfl hne
    | cons r rs =>
      have hr : r.1.clientIP = x := hall r (List.mem_cons_self _ _)
      rw [uvIncrements_cons, hr, hc]
      have hb : (ginMetricHandle B M1 m r.2 r.1 st).bloomFilter = B.Add st.bloomFilter x := by
        rw [handle_bloomFilter, hr, hc]; rfl
      rw [uvIncrements_known B M1 m x rs _ (fun r1 h1 => hall r1 (List.mem_cons_of_mem _ h1))
        (by rw [hb]; exact hadd _ _)]
      rfl
  refine ⟨?_, ?_, ?_, ?_, ?_, ?_⟩
  · intro env ctx st
    rw [handle_issued, callsOf_requests_uv]
  · intro reqs st
    exact handleAll_replay B M m reqs st
  · intro reqs st
    refine le_trans (uvIncrements_le_fresh B M m hadd hkeep reqs st) ?_
    rw [← List.card_toFinset]
    exact Finset.card_le_card (Finset.filter_subset _ _)
  · intro reqs st x hne hall hc
    exact hone M reqs st x hne hall hc
  · intro reqs sr hwf hreg hord
    exact total_handleAll_uv B m reqs sr hwf hreg hord
  · intro reqs sr x hne hall hc hwf hreg hord
    rw [total_handleAll_uv B m reqs sr hwf hreg hord, hone registryOps reqs sr x hne hall hc]
    norm_num

/-- Two requests of the client 10.0.0.1 after `Use` on the sample state (new filter,
the seven metrics registered) add exactly one to the total of the unique-visitor
counter. -/
theorem unique_visitor_counted_once_witness :
    sampleRequests ≠ [] ∧ (∀ r ∈ sampleRequests, r.1.clientIP = "10.0.0.1")
    ∧ sampleBloom.Contains registeredState.bloomFilter "10.0.0.1" = false
    ∧ registeredState.metrics.WellFormed
    ∧ registeredState.metrics.admits metricRequestUVTotal sampleMonitor.metadata.length
        MetricType.Counter = true
    ∧ (∀ r ∈ sampleRequests, sampleMonitor.RangeOrder (r.2.order metricRequestUVTotal))
    ∧ uvIncrements registeredState
        (handleAll sampleBloom registryOps sampleMonitor sampleRequests registeredState) = 1
    ∧ Registry.total registeredState.metrics metricRequestUVTotal = 0
    ∧ Registry.total (handleAll sampleBloom registryOps sampleMonitor sampleRequests
          registeredState).metrics metricRequestUVTotal
        = Registry.total registeredState.metrics metricRequestUVTotal + 1 :=
  have t := unique_visitor_counted_once sampleBloom registryOps sampleMonitor
    (fun f x => bloom_add_contains f x) (fun f x y h => bloom_add_keeps f x y h)
  ⟨List.cons_ne_nil _ _, by decide, by decide, by decide, by decide, by decide,
    t.2.2.2.1 sampleRequests registeredState "10.0.0.1" (List.cons_ne_nil _ _) (by decide)
      (by decide),
    by decide,
    t.2.2.2.2.2 sampleRequests registeredState "10.0.0.1" (List.cons_ne_nil _ _) (by decide)
      (by decide) (by decide) (by decide) (by decide)⟩

/-- C9 (as amended): `ginMetricHandle` updates the request-body counter exactly when
the content length is at least 0, adding `float64(contentLength)`, and the
response-body counter exactly when the response size is above 0, adding
`float64(size)`; the float64 is the number itself below 2^53. The registry it
leaves is the one obtained by applying the updates it issued; in the registry model
the request-body counter grows by that amount at the label values of the request
exactly when the content length is at least 0, the response-body counter exactly
when the size is above 0, and every other value is kept; so a content length of 0
or below and a response size of 0 or below leave every value unchanged. -/
theorem body_size_boundaries {F S : Type} (B : BloomOps F) (M : MetricOps S) (m : Monitor)
    (env : Env) (ctx : Context) (st : State F S) (sr : State F Registry) :
    (ginMetricHandle B M m env ctx st).metrics
      = M.replay (issued st (ginMetricHandle B M m env ctx st)) st.metrics
    ∧ callsOf metricRequestBody (issued st (ginMetricHandle B M m env ctx st))
      = (if ctx.contentLength ≥ 0 then
          [⟨metricRequestBody, getMetricValues m (env.order metricRequestBody) [],
            Op.Add (f64OfNat ctx.contentLength.toNat)⟩]
        else [])
    ∧ callsOf metricResponseBody (issued st (ginMetricHandle B M m env ctx st))
      = (if ctx.size > 0 then
          [⟨metricResponseBody, getMetricValues m (env.order metricResponseBody) [],
            Op.Add (f64OfNat ctx.size.toNat)⟩]
        else [])
    ∧ (∀ n : Nat, n < 2 ^ 53 → (f64OfNat n).toRat = n)
    ∧ (sr.metrics.accepts ⟨metricRequestBody, getMetricValues m (env.order metricRequestBody) [],
          Op.Add (f64OfNat ctx.contentLength.toNat)⟩ = true →
        ∀ lv, Registry.value (ginMetricHandle B registryOps m env ctx sr).metrics
            metricRequestBody lv
          = Registry.value sr.metrics metricRequestBody lv
            + if ctx.contentLength ≥ 0
                ∧ lv = getMetricValues m (env.order metricRequestBody) []
              then (f64OfNat ctx.contentLength.toNat).toRat
              else 0)
    ∧ (sr.metrics.accepts ⟨metricResponseBody,
          getMetricValues m (env.order metricResponseBody) [],
          Op.Add (f64OfNat ctx.size.toNat)⟩ = true →
        ∀ lv, Registry.value (ginMetricHandle B registryOps m env ctx sr).metrics
            metricResponseBody lv
          = Registry.value sr.metrics metricResponseBody lv
            + if ctx.size > 0 ∧ lv = getMetricValues m (env.order metricResponseBody) []
              then (f64OfNat ctx.size.toNat).toRat
              else 0)
    ∧ (ctx.contentLength ≤ 0 → ∀ lv,
        Registry.value (ginMetricHandle B registryOps m env ctx sr).metrics metricRequestBody lv
          = Registry.value sr.metrics metricRequestBody lv)
    ∧ (ctx.size ≤ 0 → ∀ lv,
        Registry.value (ginMetricHandle B registryOps m env ctx sr).metrics metricResponseBody lv
          = Registry.value sr.metrics metricResponseBody lv) := by
  refine ⟨handle_replay B M m env ctx st, ?_, ?_, f64OfNat_toRat, ?_, ?_, ?_, ?_⟩
  · rw [handle_issued, callsOf_requests_body]
  · rw [handle_issued, callsOf_requests_response]
  · intro hacc lv
    exact value_handle_body B m env ctx sr hacc lv
  · intro hacc lv
    exact value_handle_response B m env ctx sr hacc lv
  · intro hcl lv
    rw [handle_metrics]
    apply value_foldl
    have h0 : ctx.contentLength.toNat = 0 := Int.toNat_eq_zero.mpr hcl
    apply requests_forall
    · exact Or.inl (by simp [metricRequestTotal, metricRequestBody])
    · exact Or.inl (by simp [metricRequestUVTotal, metricRequestBody])
    · exact Or.inl (by simp [metricURIRequestTotal, metricRequestBody])
    · exact Or.inr ⟨_, rfl, by rw [h0]; exact f64OfNat_zero_toRat⟩
    · exact Or.inl (by simp [metricSlowRequest, metricRequestBody])
    · exact Or.inl (by simp [metricRequestDuration, metricRequestBody])
    · exact Or.inl (by simp [metricResponseBody, metricRequestBody])
  · intro hsz lv
    rw [handle_metrics]
    apply value_foldl
    have h0 : ctx.size.toNat = 0 := Int.toNat_eq_zero.mpr hsz
    apply requests_forall
    · exact Or.inl (by simp [metricRequestTotal, metricResponseBody])
    · exact Or.inl (by simp [metricRequestUVTotal, metricResponseBody])
    · exact Or.inl (by simp [metricURIRequestTotal, metricResponseBody])
    · exact Or.inl (by simp [metricRequestBody, metricResponseBody])
    · exact Or.inl (by simp [metricSlowRequest, metricResponseBody])
    · exact Or.inl (by simp [metricRequestDuration, metricResponseBody])
    · exact Or.inr ⟨_, rfl, by rw [h0]; exact f64OfNat_zero_toRat⟩

set_option maxRecDepth 100000 in
/-- The sample request (content length 0, response size 16) with the seven metrics
registered: the request-body counter keeps its value and the response-body counter
grows by 16. -/
theorem body_size_boundaries_witness :
    registeredState.metrics.accepts ⟨metricResponseBody, sampleBodyValues,
        Op.Add (f64OfNat 16)⟩ = true
    ∧ Registry.value (ginMetricHandle sampleBloom registryOps sampleMonitor sampleEnv
          sampleContext registeredState).metrics metricRequestBody sampleBodyValues
        = Registry.value registeredState.metrics metricRequestBody sampleBodyValues
    ∧ Registry.value (ginMetricHandle sampleBloom registryOps sampleMonitor sampleEnv
          sampleContext registeredState).metrics metricResponseBody sampleBodyValues
        = Registry.value registeredState.metrics metricResponseBody sampleBodyValues + 16 := by
  have hacc : registeredState.metrics.accepts ⟨metricResponseBody, sampleBodyValues,
      Op.Add (f64OfNat 16)⟩ = true := by decide
  have t := body_size_boundaries sampleBloom registryOps sampleMonitor sampleEnv sampleContext
    registeredState registeredState
  refine ⟨hacc, t.2.2.2.2.2.2.1 (by decide) sampleBodyValues, ?_⟩
  refine (t.2.2.2.2.2.1 hacc sampleBodyValues).trans ?_
  have h16 : (f64OfNat sampleContext.size.toNat).toRat = 16 := by
    have := t.2.2.2.1 16 (by norm_num)
    simpa using this
  rw [if_pos ⟨by decide, rfl⟩, h16]

set_option maxRecDepth 100000 in
/-- C9 (as stated, fails): for a content length of 2^53 + 1 = 9007199254740993 bytes
the update issued on the request-body counter adds `float64(9007199254740993)`, which
is 9007199254740992, and the counter of the registry model grows by 9007199254740992,
not by the content length. -/
theorem body_size_rounding_counterexample :
    bigContext.contentLength = 9007199254740993
    ∧ f64OfNat 9007199254740993 = ⟨9007199254740992, 0⟩
    ∧ callsOf metricRequestBody (issued registeredState
        (ginMetricHandle sampleBloom registryOps sampleMonitor sampleEnv bigContext
          registeredState))
      = [⟨metricRequestBody, sampleBodyValues, Op.Add ⟨9007199254740992, 0⟩⟩]
    ∧ Registry.value (ginMetricHandle sampleBloom registryOps sampleMonitor sampleEnv
          bigContext registeredState).metrics metricRequestBody sampleBodyValues
        = Registry.value registeredState.metrics metricRequestBody sampleBodyValues
          + 9007199254740992
    ∧ ¬ (Registry.value (ginMetricHandle sampleBloom registryOps sampleMonitor sampleEnv
          bigContext registeredState).metrics metricRequestBody sampleBodyValues
        = Registry.value registeredState.metrics metricRequestBody sampleBodyValues
          + 9007199254740993) := by
  have hf : f64OfNat 9007199254740993 = ⟨9007199254740992, 0⟩ := by decide
  have hn : bigContext.contentLength.toNat = 9007199254740993 := by decide
  have hr : (f64OfNat 9007199254740993).toRat = 9007199254740992 := by
    rw [hf]; norm_num [Float64.toRat]
  have hacc : registeredState.metrics.accepts ⟨metricRequestBody,
      getMetricValues sampleMonitor (sampleEnv.order metricRequestBody) [],
      Op.Add (f64OfNat bigContext.contentLength.toNat)⟩ = true := by decide
  have hv := value_handle_body sampleBloom sampleMonitor sampleEnv bigContext registeredState
    hacc sampleBodyValues
  rw [if_pos ⟨by decide, rfl⟩, hn, hr] at hv
  refine ⟨rfl, hf, ?_, hv, ?_⟩
  · rw [handle_issued, callsOf_requests_body, if_pos (by decide), hn, hf]
    rfl
  · rw [hv]
    intro h
    have := add_left_cancel h
    norm_num at this

end Ginmetrics
